import Mathlib

/-!
Verification of the `lang_gap` benchmark core against its specification.

This file shallowly embeds the Python sources of the repository:

* `src/lang_gap/evaluator.py` — `evaluate_coding` (judging policy and
  generated test harness) and `evaluate_reasoning`,
* `src/lang_gap/extractor.py` — `extract_code` and `extract_answer`,
* `src/lang_gap/client.py` — the retry/backoff loop of
  `OpenRouterClient._complete_with_retry` and the per-model semaphore of
  `OpenRouterClient.complete`,
* `src/lang_gap/runner.py` — `evaluate_single`,
* `src/lang_gap/config.py` — `MAX_RETRIES`, `MAX_CONCURRENT_PER_MODEL`.

Python strings are embedded as Lean `String`s; the handful of Python string
primitives the sources use (`strip`, `splitlines`, `startswith`, slicing,
`join`, `lower`, substring search) are re-implemented below over `List Char`,
restricted to ASCII whitespace, which is all the judged strings contain.
Machine floats are modelled as exact rationals (`ℚ`); the comparisons proved
here are far from any rounding boundary, so the verdicts agree with IEEE-754
evaluation.  Subprocess execution and the HTTP transport are modelled by
explicit outcome oracles passed as arguments.
-/

namespace LangGap

/-! ## Python string primitives -/

/-- ASCII whitespace, the characters Python's `str.strip` removes for the
strings arising here (space, tab, newline, carriage return, vertical tab,
form feed). -/
def isPySpace (c : Char) : Bool :=
  c = ' ' || c = '\t' || c = '\n' || c = '\r' || c = '\x0b' || c = '\x0c'

/-- Python `str.strip()` on a list of characters. -/
def pyStripL (l : List Char) : List Char :=
  ((l.dropWhile isPySpace).reverse.dropWhile isPySpace).reverse

/-- Python `str.strip()`. -/
def pyStrip (s : String) : String := ⟨pyStripL s.data⟩

/-- Python slicing `s[:n]`. -/
def pyTake (n : Nat) (s : String) : String := ⟨s.data.take n⟩

/-- Python `pre.startswith(sub)` is `sub` being a prefix; here as
`pyStartswith s sub`. -/
def pyStartswith (s sub : String) : Bool := sub.data.isPrefixOf s.data

/-- Python `str.lower()` (ASCII). -/
def pyLower (s : String) : String := ⟨s.data.map Char.toLower⟩

/-- Split a character list at every occurrence of `c` (the separator is
dropped; `n+1` parts for `n` separators). -/
def splitOnChar (c : Char) : List Char → List (List Char)
  | [] => [[]]
  | x :: xs =>
    match splitOnChar c xs with
    | [] => [[]]
    | h :: t => if x = c then [] :: h :: t else (x :: h) :: t

/-- Python `str.splitlines()` for `\n`-separated text: `\n` is a line
terminator, so a trailing `\n` does not produce a final empty line and the
empty string has no lines. -/
def pySplitlinesL (l : List Char) : List (List Char) :=
  if l = [] then []
  else
    let parts := splitOnChar '\n' l
    if parts.getLast? = some [] then parts.dropLast else parts

/-- Python `str.splitlines()`. -/
def pySplitlines (s : String) : List String :=
  (pySplitlinesL s.data).map (fun l => ⟨l⟩)

/-- Python `sep.join(parts)`. -/
def joinWith (sep : String) : List String → String
  | [] => ""
  | [s] => s
  | s :: rest => s ++ sep ++ joinWith sep rest

/-- Does `needle` occur as a contiguous substring of the list? (Python's
`needle in hay`.) -/
def listContains (needle : List Char) : List Char → Bool
  | [] => needle = []
  | c :: cs => needle.isPrefixOf (c :: cs) || listContains needle cs

/-- Python `needle in hay` on strings, as `strContains hay needle`. -/
def strContains (hay needle : String) : Bool := listContains needle.data hay.data

/-! ### Lemmas about the string primitives -/

theorem isPrefixOf_append (l m : List Char) : l.isPrefixOf (l ++ m) = true := by
  induction l with
  | nil => simp [List.isPrefixOf]
  | cons a t ih => simp [List.isPrefixOf, ih]

theorem listContains_of_decomp (a needle b : List Char) :
    listContains needle (a ++ needle ++ b) = true := by
  induction a with
  | nil =>
    cases needle with
    | nil => cases b <;> simp [listContains]
    | cons c cs =>
      simp only [List.nil_append, listContains, Bool.or_eq_true]
      exact Or.inl (by simp [isPrefixOf_append (c :: cs) b])
  | cons x xs ih =>
    simp only [List.cons_append, listContains, Bool.or_eq_true]
    exact Or.inr ih

theorem strContains_of_decomp (a n b : String) :
    strContains (a ++ n ++ b) n = true := by
  simpa [strContains, String.data_append] using
    listContains_of_decomp a.data n.data b.data

/-- A list whose first and last characters are not whitespace is unchanged
by `strip`. -/
theorem pyStripL_eq_self (l : List Char)
    (h1 : ∀ a, l.head? = some a → isPySpace a = false)
    (h2 : ∀ a, l.getLast? = some a → isPySpace a = false) :
    pyStripL l = l := by
  cases l with
  | nil => rfl
  | cons a t =>
    have ha : isPySpace a = false := h1 a rfl
    unfold pyStripL
    rw [List.dropWhile_cons_of_neg (by simp [ha])]
    cases hrev : (a :: t).reverse with
    | nil => exact absurd (congrArg List.length hrev) (by simp)
    | cons b r =>
      have hb : (a :: t).getLast? = some b := by
        rw [← List.head?_reverse, hrev]; rfl
      have hbw : isPySpace b = false := h2 b hb
      rw [List.dropWhile_cons_of_neg (by simp [hbw])]
      rw [← hrev, List.reverse_reverse]

/-! ## Inference client (`src/lang_gap/client.py`, `src/lang_gap/config.py`) -/

/-- `config.py`: `MAX_RETRIES = 3`. -/
def MAX_RETRIES : Nat := 3

/-- `config.py`: `MAX_CONCURRENT_PER_MODEL = 5`. -/
def MAX_CONCURRENT_PER_MODEL : Nat := 5

/-- `client.py`: the `CompletionResponse` dataclass. -/
structure CompletionResponse where
  content : String
  latency_ms : Nat
  tokens_used : Nat
  deriving DecidableEq, Repr

/-- The observable outcome of one POST attempt inside
`_complete_with_retry`, as reported by the transport:

* `errorStatus code text` — an HTTP response with a non-success (non-2xx)
  status and body `text`;
* `readTimeout` — `httpx.ReadTimeout` raised while awaiting the response;
* `missingField key` — a 2xx response whose JSON body lacks an expected
  field, so that indexing raises `KeyError(key)`;
* `success content tokens latencyMs` — a 2xx response with the expected
  `choices[0].message.content` and token usage. -/
inductive AttemptOutcome where
  | errorStatus (code : Nat) (text : String)
  | readTimeout
  | missingField (key : String)
  | success (content : String) (tokens latencyMs : Nat)
  deriving DecidableEq, Repr

/-- Does the attempt return a well-formed successful response? -/
def AttemptOutcome.isSuccess : AttemptOutcome → Bool
  | .success .. => true
  | _ => false

/-- The string representation of the exception recorded in `last_error` for a
failed attempt.  For 429/5xx it is the code's own
`RuntimeError(f"HTTP {status}: {text[:200]}")`; for the exceptions raised by
the `httpx` library (`raise_for_status` on another non-success status,
`ReadTimeout`) and for `KeyError` the library-produced `str(exc)` is modelled
by a tagged rendering. -/
def attemptErrMsg : AttemptOutcome → String
  | .errorStatus code text =>
    if code = 429 || 500 ≤ code then
      "HTTP " ++ Nat.repr code ++ ": " ++ pyTake 200 text
    else
      "HTTPStatusError " ++ Nat.repr code
  | .readTimeout => "ReadTimeout"
  | .missingField key => "KeyError: " ++ key
  | .success .. => ""

/-- The observable trace of one `_complete_with_retry` call: the final result
(`.ok` response or `.error` with the raised `RuntimeError`'s message), the
number of POST attempts made, and the backoff sleeps performed, in seconds and
in order. -/
structure RetryTrace where
  result : Except String CompletionResponse
  attemptsMade : Nat
  sleeps : List Nat
  deriving Repr

/-- The `for attempt in range(MAX_RETRIES)` loop of `_complete_with_retry`.
`remaining` counts loop iterations still allowed, `made` the attempts already
executed (so the current attempt index is `made`), `lastErr` the current
`last_error`, `sleeps` the sleeps so far.  Every failing attempt — HTTP 429 or
5xx via the explicit branch, every other non-success status via
`raise_for_status`'s `HTTPStatusError`, a `ReadTimeout`, or a `KeyError` from
a malformed body — stores `last_error`, sleeps `2 ** (attempt + 1)` seconds
and retries; a successful attempt returns immediately. -/
def retryLoop (modelId : String) (oracle : Nat → AttemptOutcome) :
    Nat → Nat → String → List Nat → RetryTrace
  | 0, made, lastErr, sleeps =>
    { result := .error ("Failed after " ++ Nat.repr MAX_RETRIES ++ " retries for "
        ++ modelId ++ ": " ++ lastErr)
      attemptsMade := made
      sleeps := sleeps }
  | remaining + 1, made, _, sleeps =>
    match oracle made with
    | .success c tok lat =>
      { result := .ok { content := c, latency_ms := lat, tokens_used := tok }
        attemptsMade := made + 1
        sleeps := sleeps }
    | o =>
      retryLoop modelId oracle remaining (made + 1) (attemptErrMsg o)
        (sleeps ++ [2 ^ (made + 1)])

/-- `OpenRouterClient._complete_with_retry`, with the transport modelled by
`oracle` (the outcome of the `i`-th attempt).  `last_error` starts as
Python's `None`. -/
def complete_with_retry (modelId : String) (oracle : Nat → AttemptOutcome) :
    RetryTrace :=
  retryLoop modelId oracle MAX_RETRIES 0 "None" []

/-! ## Per-model concurrency gate (`OpenRouterClient.complete`) -/

/-- The number of in-flight completion requests per OpenRouter model id.  The
client keys one `asyncio.Semaphore(MAX_CONCURRENT_PER_MODEL)` per model id in
`self._semaphores` (a `defaultdict`, so the gate exists exactly once per model
and is shared by every caller); a semaphore holding value `v` for model `m`
corresponds to `MAX_CONCURRENT_PER_MODEL - v` requests in flight. -/
def InFlight : Type := String → Nat

/-- One scheduler step of the client.  `beginRequest m` is a `complete` call
for model `m` passing `async with self._semaphores[model_id]`, possible only
while fewer than `MAX_CONCURRENT_PER_MODEL` requests for `m` are in flight —
the guard reads only model `m`'s own gate; `endRequest m` is a call for `m`
finishing and releasing the gate. -/
inductive ClientStep : InFlight → InFlight → Prop
  | beginRequest (s : InFlight) (m : String)
      (h : s m < MAX_CONCURRENT_PER_MODEL) :
      ClientStep s (Function.update s m (s m + 1))
  | endRequest (s : InFlight) (m : String) (h : 0 < s m) :
      ClientStep s (Function.update s m (s m - 1))

/-- States reachable from the idle client (no request in flight). -/
def ClientReachable (s : InFlight) : Prop :=
  Relation.ReflTransGen ClientStep (fun _ => 0) s

/-! ## Verifier (`src/lang_gap/evaluator.py`) -/

/-- `schemas.py`: a `TestCase` — `input` is Python expression source text,
`expected` a Python literal as source text. -/
structure TestCase where
  input : String
  expected : String
  deriving DecidableEq, Repr

/-- The `print` statement of the success branch of check block `i`. -/
def passMarker (i : Nat) : String :=
  "print(\"PASS: case " ++ Nat.repr i ++ "\")"

/-- The `print` statement of the comparison-failure branch of check block
`i` (the braces are literal in the generated script's f-string). -/
def failMarker (i : Nat) : String :=
  "print(f\"FAIL: case " ++ Nat.repr i ++ ": got \x7b_result_"
    ++ Nat.repr i ++ "!r\x7d, expected \x7b_expected_" ++ Nat.repr i
    ++ "!r\x7d\")"

/-- The exception handler of check block `i`: any exception raised while
evaluating the case is caught locally and printed as a `FAIL:` line. -/
def excHandler (i : Nat) : String :=
  "except Exception as _e_" ++ Nat.repr i
    ++ ":\n    print(f\"FAIL: case " ++ Nat.repr i ++ ": exception \x7b_e_"
    ++ Nat.repr i ++ "\x7d\")"

/-- One check block of the generated test script, for case index `i`: the
result of `textwrap.dedent` on the f-string in `_build_test_harness`, with
`{i}`, `{tc.input}` and `{tc.expected}` interpolated.  The block evaluates the
case's `input` expression and `expected` literal verbatim, compares them with
`==`, prints a `PASS: case i` / `FAIL: case i: ...` marker line, and wraps the
whole case in `try/except` so an exception becomes a `FAIL:` line instead of
aborting the script. -/
def checkBlock (i : Nat) (tc : TestCase) : String :=
  "try:\n    _result_" ++ Nat.repr i ++ " = " ++ tc.input
    ++ "\n    _expected_" ++ Nat.repr i ++ " = " ++ tc.expected
    ++ "\n    if _result_" ++ Nat.repr i ++ " == _expected_" ++ Nat.repr i
    ++ ":\n        "
    ++ passMarker i
    ++ "\n    else:\n        "
    ++ failMarker i
    ++ "\n"
    ++ excHandler i
    ++ "\n"

/-- `evaluator._build_test_harness`: the candidate source, a separator
header, `import math`, and one check block per test case, joined by newlines.
(`function_name` is accepted and unused, exactly as in the source.) -/
def build_test_harness (code function_name : String)
    (test_cases : List TestCase) : String :=
  joinWith "\n" ([code, "", "# --- test harness ---", "import math", ""]
    ++ (test_cases.enum.map fun p => checkBlock p.1 p.2))

/-- The outcome of the `subprocess.run` call in `evaluate_coding`:
whether `subprocess.TimeoutExpired` was raised (the 10-second wall-clock
timeout), and otherwise the exit code and captured text streams. -/
structure ProcResult where
  timedOut : Bool
  returncode : Int
  stdout : String
  stderr : String
  deriving DecidableEq, Repr

/-- `result.stderr.strip()` truncated as in `evaluate_coding`: strings longer
than 500 characters are cut to 500 and marked with an ellipsis. -/
def pyTrunc500 (s : String) : String :=
  if s.length > 500 then pyTake 500 s ++ "..." else s

/-- The `FAIL:`-prefixed lines of the stripped standard output, in order —
the `failures` list accumulated by `evaluate_coding`'s loop. -/
def failuresOf (r : ProcResult) : List String :=
  (pySplitlines (pyStrip r.stdout)).filter (fun line => pyStartswith line "FAIL:")

/-- Whether any line of the stripped standard output starts with `PASS:`. -/
def hasPassLine (r : ProcResult) : Bool :=
  (pySplitlines (pyStrip r.stdout)).any (fun line => pyStartswith line "PASS:")

/-- The judgment policy of `evaluate_coding` applied to the process outcome
(everything after the `subprocess.run` call). -/
def judgeProc (r : ProcResult) : Bool × Option String :=
  if r.timedOut then (false, some "Execution timed out (10s)")
  else if r.returncode ≠ 0 then
    (false, some ("Runtime error: " ++ pyTrunc500 (pyStrip r.stderr)))
  else if failuresOf r ≠ [] then
    (false, some (joinWith "; " (failuresOf r)))
  else if ¬ hasPassLine r then
    (false, some ("No test output detected. stdout: "
      ++ pyTake 200 (pyStrip r.stdout)))
  else (true, none)

/-- `evaluator.evaluate_coding`: synthesize the harness, execute it in an
isolated process (modelled by the oracle `exec`), and judge the outcome. -/
def evaluate_coding (code function_name : String) (test_cases : List TestCase)
    (exec : String → ProcResult) : Bool × Option String :=
  judgeProc (exec (build_test_harness code function_name test_cases))

/-! ### Semantic model of executing the generated harness

Running the generated script evaluates each check block in order; for case
`i` the block prints exactly one marker line.  `CaseOutcome` records what the
Python evaluation of one case did: both sides evaluated and compared equal
(`pass`), evaluated but unequal (`failCmp`, carrying the two `repr` strings),
or raised (`failExc`, carrying the exception text). -/

inductive CaseOutcome where
  | pass
  | failCmp (got expected : String)
  | failExc (msg : String)
  deriving DecidableEq, Repr

/-- The marker line the check block for case `i` prints, per outcome. -/
def caseLine (i : Nat) : CaseOutcome → String
  | .pass => "PASS: case " ++ Nat.repr i
  | .failCmp got expected =>
    "FAIL: case " ++ Nat.repr i ++ ": got " ++ got ++ ", expected " ++ expected
  | .failExc msg =>
    "FAIL: case " ++ Nat.repr i ++ ": exception " ++ msg

/-- The standard output of a normal run of the generated harness: one marker
line per case, in case order.  (`print` ends each line with `\n`; the
captured text is stripped before splitting, so the terminator placement is
immaterial and the lines are joined here.) -/
def harnessStdout (os : List CaseOutcome) : String :=
  joinWith "\n" (os.enum.map fun p => caseLine p.1 p.2)

/-- A harness execution that ran to completion: no timeout, exit code 0, the
marker lines on stdout, nothing on stderr. -/
def harnessRun (os : List CaseOutcome) : ProcResult :=
  { timedOut := false, returncode := 0, stdout := harnessStdout os, stderr := "" }

/-- The interpolated strings of an outcome keep the marker line on a single
line and free of trailing whitespace: `repr` output and exception messages
contain no newline, and the line's final fragment is nonempty and does not
end in whitespace. -/
def lineSafe (s : String) : Prop :=
  ('\n' ∉ s.data) ∧ s.data ≠ [] ∧ (∀ a, s.data.getLast? = some a → isPySpace a = false)

/-- Hygiene of a case outcome's interpolated strings (see `lineSafe`). -/
def Hygienic : CaseOutcome → Prop
  | .pass => True
  | .failCmp got expected => ('\n' ∉ got.data) ∧ lineSafe expected
  | .failExc msg => lineSafe msg

/-! ### Reasoning judgment -/

/-- Numeric value of a decimal digit character. -/
def digitVal (c : Char) : Nat := c.toNat - '0'.toNat

/-- Decimal digits to a natural number. -/
def digitsToNat (l : List Char) : Nat :=
  l.foldl (fun acc c => acc * 10 + digitVal c) 0

/-- The syntactic shape of a finite decimal float literal: sign, integer
digits, fractional digits, exponent sign and digits (`expDigits = []` when
no exponent is written). -/
structure FloatLit where
  neg : Bool
  intDigits : List Char
  fracDigits : List Char
  expNeg : Bool
  expDigits : List Char
  deriving DecidableEq, Repr

/-- Parse the exponent part (after `e`/`E`): optional sign, one or more
digits, nothing else. -/
def parseExp (neg : Bool) (ip fp erest : List Char) : Option FloatLit :=
  let eneg : Bool := match erest with
    | '-' :: _ => true
    | _ => false
  let e1 := match erest with
    | '-' :: r => r
    | '+' :: r => r
    | _ => erest
  let ed := e1.takeWhile Char.isDigit
  if ed = [] ∨ e1.dropWhile Char.isDigit ≠ [] then none
  else some ⟨neg, ip, fp, eneg, ed⟩

/-- Parse a finite decimal float literal the way Python's `float()` reads
one: optional sign, digits with an optional dot (at least one digit on one
side), optional decimal exponent.  `inf`/`nan`, hexadecimal forms,
digit-group underscores and surrounding whitespace are outside this model
and yield `none`; the callers below only pass stripped strings. -/
def parseFloatLit (l : List Char) : Option FloatLit :=
  let neg : Bool := match l with
    | '-' :: _ => true
    | _ => false
  let l1 := match l with
    | '-' :: rest => rest
    | '+' :: rest => rest
    | _ => l
  let ip := l1.takeWhile Char.isDigit
  let rest1 := l1.dropWhile Char.isDigit
  let hasDot : Bool := match rest1 with
    | '.' :: _ => true
    | _ => false
  let fp := if hasDot then rest1.tail.takeWhile Char.isDigit else []
  let rest2 := if hasDot then rest1.tail.dropWhile Char.isDigit else rest1
  if ip = [] ∧ fp = [] then none
  else match rest2 with
    | [] => some ⟨neg, ip, fp, false, []⟩
    | 'e' :: erest => parseExp neg ip fp erest
    | 'E' :: erest => parseExp neg ip fp erest
    | _ => none

/-- The exact rational value of a parsed float literal. -/
def FloatLit.value (f : FloatLit) : ℚ :=
  (if f.neg then (-1 : ℚ) else 1)
    * ((digitsToNat f.intDigits : ℚ)
        + (digitsToNat f.fracDigits : ℚ) / (10 : ℚ) ^ f.fracDigits.length)
    * (if f.expDigits = [] then 1
       else if f.expNeg then 1 / (10 : ℚ) ^ digitsToNat f.expDigits
       else (10 : ℚ) ^ digitsToNat f.expDigits)

/-- Python `float(s)` on a finite decimal literal, as an exact rational; the
comparisons judged in this development are far from any IEEE-754 rounding
boundary, so the verdicts agree with double-precision evaluation. -/
def pyFloat (s : String) : Option ℚ := (parseFloatLit s.data).map FloatLit.value

/-- `math.isclose(a, b, abs_tol=t)`: the relative tolerance keeps its
default `rel_tol=1e-09`, so the test is
`|a - b| <= max(1e-09 * max(|a|, |b|), t)`. -/
def isclose (a b absTol : ℚ) : Bool :=
  decide (|a - b| ≤ max ((1 / 1000000000) * max |a| |b|) absTol)

/-- `evaluator.evaluate_reasoning`: normalize (strip, lowercase) and compare;
if unequal, parse both sides as floats and compare with
`math.isclose(..., abs_tol=tolerance or 0)`; a parse failure is a normal
`false`. -/
def evaluate_reasoning (extracted expected : String)
    (tolerance : Option ℚ) : Bool :=
  if pyLower (pyStrip extracted) = pyLower (pyStrip expected) then true
  else
    match pyFloat (pyLower (pyStrip extracted)),
        pyFloat (pyLower (pyStrip expected)) with
    | some e_val, some x_val => isclose e_val x_val (tolerance.getD 0)
    | _, _ => false

/-! ## Extractor (`src/lang_gap/extractor.py`)

`extract_answer` embeds `re.findall(r"ANSWER:\s*(.+?)$", response,
re.MULTILINE | re.IGNORECASE)`: scanning left to right, at each position a
match needs the literal tag (case-insensitively), then `\s*` — greedy, and
able to cross newlines — then a non-empty capture of non-newline characters
ending at a line boundary (`$` under MULTILINE).  The scanner resumes after
each match's end. -/

/-- The tag `ANSWER:`, lowercased for the case-insensitive comparison. -/
def tagChars : List Char := ['a', 'n', 's', 'w', 'e', 'r', ':']

/-- Match `\s*(.+?)$` against `rest` (the text after a tag occurrence).
Returns the capture and the number of characters consumed, or `none` when no
backtracking choice succeeds.  If a non-whitespace character follows the
whitespace run, the capture is the remainder of that character's line.  If
`rest` is whitespace to its end, the greedy `\s*` backtracks to the last
whitespace character that is not a newline and sits at a line boundary, and
captures exactly that character (which later strips to the empty string). -/
def wsCapture (rest : List Char) : Option (List Char × Nat) :=
  let w := rest.takeWhile isPySpace
  let r2 := rest.drop w.length
  match r2 with
  | _ :: _ =>
    let cap := r2.takeWhile (· != '\n')
    some (cap, w.length + cap.length)
  | [] =>
    let t := w.reverse.takeWhile (· == '\n')
    match w.reverse.drop t.length with
    | c :: _ => some ([c], w.length - t.length)
    | [] => none

/-- Attempt the full pattern at the current position: the case-insensitive
tag, then `wsCapture`.  Returns the capture and total characters consumed. -/
def tagAt (l : List Char) : Option (List Char × Nat) :=
  if (l.take 7).map Char.toLower = tagChars then
    match wsCapture (l.drop 7) with
    | some (cap, used) => some (cap, 7 + used)
    | none => none
  else none

theorem tagAt_pos {l : List Char} {cap : List Char} {n : Nat}
    (h : tagAt l = some (cap, n)) : 1 ≤ n := by
  unfold tagAt at h
  split at h
  · cases hw : wsCapture (l.drop 7) with
    | none => rw [hw] at h; cases h
    | some p => rw [hw] at h; cases h; omega
  · cases h

/-- `re.findall` for the answer-tag pattern: the captures in match order.
After a match consuming `n` characters the scanner must resume `n` characters
further on; to stay structurally recursive the remaining characters to skip
are carried as the first argument (`answerScanGo k l` scans `l.drop k`). -/
def answerScanGo : Nat → List Char → List (List Char)
  | _, [] => []
  | skip + 1, _ :: cs => answerScanGo skip cs
  | 0, c :: cs =>
    match tagAt (c :: cs) with
    | some (cap, n) => cap :: answerScanGo (n - 1) cs
    | none => answerScanGo 0 cs

/-- `re.findall` for the answer-tag pattern over the whole response. -/
def answerScan (l : List Char) : List (List Char) := answerScanGo 0 l

/-- The digits-and-dot part of `-?\d+(?:\.\d+)?`, after the optional sign
(`sgn`) has been taken: one or more digits, optionally a dot with one or more
digits.  Returns the full token and the characters consumed. -/
def numTokenCore (sgn l1 : List Char) : Option (List Char × Nat) :=
  let d1 := l1.takeWhile Char.isDigit
  if d1 = [] then none
  else
    match l1.drop d1.length with
    | '.' :: r2 =>
      let d2 := r2.takeWhile Char.isDigit
      if d2 = [] then some (sgn ++ d1, sgn.length + d1.length)
      else some (sgn ++ d1 ++ '.' :: d2, sgn.length + d1.length + 1 + d2.length)
    | _ => some (sgn ++ d1, sgn.length + d1.length)

/-- Match `-?\d+(?:\.\d+)?` anchored at the current position: the token text
and the characters consumed. -/
def numTokenAt (l : List Char) : Option (List Char × Nat) :=
  if l.head? = some '-' then numTokenCore ['-'] l.tail
  else numTokenCore [] l

theorem numTokenCore_pos {sgn l1 tok : List Char} {n : Nat}
    (h : numTokenCore sgn l1 = some (tok, n)) : 1 ≤ n := by
  simp only [numTokenCore] at h
  split at h
  · cases h
  · rename_i hd1
    have hlen : 0 < (l1.takeWhile Char.isDigit).length :=
      List.length_pos.mpr hd1
    split at h
    · split at h <;> (cases h; omega)
    · cases h; omega

theorem numTokenAt_pos {l tok : List Char} {n : Nat}
    (h : numTokenAt l = some (tok, n)) : 1 ≤ n := by
  unfold numTokenAt at h
  split at h <;> exact numTokenCore_pos h

/-- `re.findall` for the numeric-token pattern (skip-counter form, as in
`answerScanGo`). -/
def numberScanGo : Nat → List Char → List (List Char)
  | _, [] => []
  | skip + 1, _ :: cs => numberScanGo skip cs
  | 0, c :: cs =>
    match numTokenAt (c :: cs) with
    | some (tok, n) => tok :: numberScanGo (n - 1) cs
    | none => numberScanGo 0 cs

/-- `re.findall` for the numeric-token pattern over the whole response. -/
def numberScan (l : List Char) : List (List Char) := numberScanGo 0 l

/-- `extractor.extract_answer`: the last `ANSWER:` capture, stripped;
otherwise the last numeric token; otherwise `None`. -/
def extract_answer (response : String) : Option String :=
  match (answerScan response.data).getLast? with
  | some cap => some ⟨pyStripL cap⟩
  | none =>
    match (numberScan response.data).getLast? with
    | some tok => some (⟨tok⟩ : String)
    | none => none

/-- Does the lowercased tag occur (as a full 7-character window) anywhere in
the list? -/
def containsTag : List Char → Bool
  | [] => false
  | c :: cs =>
    (((c :: cs).take 7).map Char.toLower == tagChars) || containsTag cs

/-! ### Fenced code blocks

`extract_code` embeds `re.findall(r"```(?:python|py)\s*\n(.*?)```", response,
re.DOTALL)`.  At a match position the literal fence tag is required
(`python` tried before `py`; when the text reads ` ```python` only the long
alternative can complete, since `t` follows the short one), then `\s*\n` —
the greedy whitespace run backtracks so that the final consumed character is
the run's last newline — then the lazy body up to the first ` ``` `. -/

/-- The fence-tag alternatives at the current position. -/
def fenceTagLen (l : List Char) : Option Nat :=
  if ("```python".data).isPrefixOf l then some 9
  else if ("```py".data).isPrefixOf l then some 5
  else none

/-- Offset of the first occurrence of ` ``` ` in the list, if any. -/
def fenceIndex : List Char → Option Nat
  | [] => none
  | c :: cs =>
    if ("```".data).isPrefixOf (c :: cs) then some 0
    else (fenceIndex cs).map (· + 1)

/-- Attempt a whole fenced block at the current position.  Returns the body
(the regex capture) and the characters consumed through the closing fence. -/
def blockAt (l : List Char) : Option (List Char × Nat) :=
  match fenceTagLen l with
  | none => none
  | some tagLen =>
    let after := l.drop tagLen
    let w := after.takeWhile isPySpace
    let t := w.reverse.takeWhile (· != '\n')
    if w.length = t.length then none
    else
      let bodyStart := tagLen + (w.length - t.length)
      let rest := l.drop bodyStart
      match fenceIndex rest with
      | none => none
      | some j => some (rest.take j, bodyStart + j + 3)

theorem blockAt_pos {l body : List Char} {n : Nat}
    (h : blockAt l = some (body, n)) : 1 ≤ n := by
  simp only [blockAt] at h
  split at h
  · cases h
  · split at h
    · cases h
    · split at h
      · cases h
      · cases h; omega

/-- `re.findall` for the fenced-block pattern: the block bodies in match
order (skip-counter form, as in `answerScanGo`). -/
def fenceScanGo : Nat → List Char → List (List Char)
  | _, [] => []
  | skip + 1, _ :: cs => fenceScanGo skip cs
  | 0, c :: cs =>
    match blockAt (c :: cs) with
    | some (body, n) => body :: fenceScanGo (n - 1) cs
    | none => fenceScanGo 0 cs

/-- `re.findall` for the fenced-block pattern over the whole response. -/
def fenceScan (l : List Char) : List (List Char) := fenceScanGo 0 l

/-! ### Raw-text fallback

The fallback embeds `re.search(rf"(def {name}\(.*\n(?:[ \t]+.+\n)*)",
response)`: the literal `def name(`, the rest of that line and its
terminating newline (absent a newline the position fails), then greedily
whole lines that start with a space or tab, contain at least one further
character, and end with a newline. -/

/-- Greedily consume `(?:[ \t]+.+\n)*`: newline-terminated lines whose first
character is a space or tab and which have at least two characters.  The
fuel argument (instantiated with the list length, which each iteration
strictly exceeds in consumption) keeps the recursion structural. -/
def indentedGo : Nat → List Char → List Char
  | 0, _ => []
  | fuel + 1, l =>
    let line := l.takeWhile (· != '\n')
    if (line.head? = some ' ' ∨ line.head? = some '\t') ∧ 2 ≤ line.length
        ∧ l.drop line.length ≠ [] then
      line ++ '\n' :: indentedGo fuel (l.drop (line.length + 1))
    else []

/-- Greedily consume `(?:[ \t]+.+\n)*` (see `indentedGo`; each iteration
consumes at least one character, so `l.length` fuel never runs out). -/
def indentedChunk (l : List Char) : List Char := indentedGo l.length l

/-- Attempt the raw-text pattern at the current position (`pat` is the
literal `def name(`). -/
def defMatchAt (pat l : List Char) : Option (List Char) :=
  if pat.isPrefixOf l then
    let rest := l.drop pat.length
    let defLineTail := rest.takeWhile (· != '\n')
    if rest.drop defLineTail.length = [] then none
    else some (pat ++ defLineTail ++ '\n'
      :: indentedChunk (rest.drop (defLineTail.length + 1)))
  else none

/-- `re.search` for the raw-text pattern: the first match in the response. -/
def rawScan (pat : List Char) : List Char → Option (List Char)
  | [] => none
  | c :: cs =>
    match defMatchAt pat (c :: cs) with
    | some g => some g
    | none => rawScan pat cs

/-- `extractor.extract_code`: all `python`/`py` fenced blocks; the first one
containing `def function_name`, else the first block, stripped; with no
fenced block, the raw-text scan for `def function_name(` and its indented
body, stripped; else `None`. -/
def extract_code (response function_name : String) : Option String :=
  match fenceScan response.data with
  | [] =>
    match rawScan ("def " ++ function_name ++ "(").data response.data with
    | some g => some (pyStrip ⟨g⟩)
    | none => none
  | b :: bs =>
    match (b :: bs).find?
        (fun block => strContains ⟨block⟩ ("def " ++ function_name)) with
    | some block => some (pyStrip ⟨block⟩)
    | none => some (pyStrip ⟨b⟩)

/-! ## Orchestrator (`src/lang_gap/runner.py`, `src/lang_gap/schemas.py`) -/

/-- `schemas.py`: the two question variants (fields not consumed by
`evaluate_single` are kept at their schema names). -/
inductive Question where
  | coding (id : String) (difficulty prompt_en prompt_ru : String)
      (function_name function_signature : String) (test_cases : List TestCase)
  | reasoning (id : String) (subcategory difficulty prompt_en prompt_ru : String)
      (expected_answer : String) (tolerance : Option ℚ)

/-- The question's `id` field. -/
def Question.qid : Question → String
  | .coding i _ _ _ _ _ _ => i
  | .reasoning i _ _ _ _ _ _ => i

/-- `schemas.py`: `EvalResult`. -/
structure EvalResult where
  question_id : String
  model : String
  language : String
  raw_response : String
  extracted_answer : Option String
  correct : Bool
  error : Option String
  latency_ms : Nat
  tokens_used : Nat

/-- `runner.evaluate_single`, with the `client.complete` call modelled by its
outcome (`.ok` a response, `.error` the text of the raised exception) and the
coding subprocess by `exec`.  When the inference call raises, the exception
is caught and turned into a failed `EvalResult`; when extraction finds no
candidate, a failed `EvalResult` with a descriptive diagnostic is returned;
no exception escapes. -/
def evaluate_single (model_name : String) (question : Question)
    (language : String) (completion : Except String CompletionResponse)
    (exec : String → ProcResult) : EvalResult :=
  match completion with
  | .error exc =>
    { question_id := question.qid, model := model_name, language := language
      raw_response := "", extracted_answer := none, correct := false
      error := some ("API error: " ++ exc), latency_ms := 0, tokens_used := 0 }
  | .ok resp =>
    match question with
    | .coding qid _ _ _ fname _ cases =>
      match extract_code resp.content fname with
      | none =>
        { question_id := qid, model := model_name, language := language
          raw_response := resp.content, extracted_answer := none
          correct := false, error := some "Could not extract code from response"
          latency_ms := resp.latency_ms, tokens_used := resp.tokens_used }
      | some code =>
        let v := evaluate_coding code fname cases exec
        { question_id := qid, model := model_name, language := language
          raw_response := resp.content, extracted_answer := some code
          correct := v.1, error := v.2
          latency_ms := resp.latency_ms, tokens_used := resp.tokens_used }
    | .reasoning qid _ _ _ _ expected tol =>
      match extract_answer resp.content with
      | none =>
        { question_id := qid, model := model_name, language := language
          raw_response := resp.content, extracted_answer := none
          correct := false
          error := some "Could not extract answer from response"
          latency_ms := resp.latency_ms, tokens_used := resp.tokens_used }
      | some a =>
        { question_id := qid, model := model_name, language := language
          raw_response := resp.content, extracted_answer := some a
          correct := evaluate_reasoning a expected tol, error := none
          latency_ms := resp.latency_ms, tokens_used := resp.tokens_used }

/-! ## Supporting lemmas -/

theorem pyTake_length_le (n : Nat) (s : String) : (pyTake n s).length ≤ n := by
  show (s.data.take n).length ≤ n
  simp [List.length_take]

/-! ## Claim C2: the judgment policy of `evaluate_coding` -/

/-- C2: for every process outcome, `evaluate_coding` returns the verdict the
judgment policy dictates — a wall-clock timeout fails with the timed-out
diagnostic; a non-zero exit fails with the stripped error stream (truncated
to at most 500 characters, plus an ellipsis marker) behind the
`Runtime error: ` prefix; a zero exit with at least one `FAIL:` line fails
with all failure lines joined; a zero exit with neither `FAIL:` nor `PASS:`
lines fails with the no-output diagnostic; and a zero exit with no `FAIL:`
line and at least one `PASS:` line succeeds with no diagnostic. -/
theorem evaluate_coding_judgment_policy (code function_name : String)
    (test_cases : List TestCase) (exec : String → ProcResult) (r : ProcResult)
    (hr : exec (build_test_harness code function_name test_cases) = r) :
    (r.timedOut = true →
      evaluate_coding code function_name test_cases exec
        = (false, some "Execution timed out (10s)"))
  ∧ (r.timedOut = false → r.returncode ≠ 0 →
      evaluate_coding code function_name test_cases exec
          = (false, some ("Runtime error: " ++ pyTrunc500 (pyStrip r.stderr)))
        ∧ (pyTake 500 (pyStrip r.stderr)).length ≤ 500)
  ∧ (r.timedOut = false → r.returncode = 0 → failuresOf r ≠ [] →
      evaluate_coding code function_name test_cases exec
        = (false, some (joinWith "; " (failuresOf r))))
  ∧ (r.timedOut = false → r.returncode = 0 → failuresOf r = [] →
      hasPassLine r = false →
      evaluate_coding code function_name test_cases exec
        = (false, some ("No test output detected. stdout: "
            ++ pyTake 200 (pyStrip r.stdout))))
  ∧ (r.timedOut = false → r.returncode = 0 → failuresOf r = [] →
      hasPassLine r = true →
      evaluate_coding code function_name test_cases exec = (true, none)) := by
  have he : evaluate_coding code function_name test_cases exec = judgeProc r := by
    rw [evaluate_coding, hr]
  refine ⟨fun h1 => ?_, fun h1 h2 => ⟨?_, pyTake_length_le 500 _⟩,
    fun h1 h2 h3 => ?_, fun h1 h2 h3 h4 => ?_, fun h1 h2 h3 h4 => ?_⟩ <;>
    rw [he] <;> simp [judgeProc, h1]
  · simp [h2]
  · simp [h2, h3]
  · simp [h2, h3, h4]
  · simp [h2, h3, h4]

/-- Witness for C2: the five policy outcomes at concrete process results. -/
theorem evaluate_coding_judgment_policy_witness :
    evaluate_coding "x = 1" "f" []
        (fun _ => { timedOut := true, returncode := 0, stdout := "", stderr := "" })
      = (false, some "Execution timed out (10s)")
  ∧ evaluate_coding "x = 1" "f" []
        (fun _ => { timedOut := false, returncode := 1, stdout := "", stderr := "boom" })
      = (false, some ("Runtime error: " ++ pyTrunc500 (pyStrip "boom")))
  ∧ evaluate_coding "x = 1" "f" []
        (fun _ => { timedOut := false, returncode := 0
                    stdout := "FAIL: case 0: got 1, expected 2", stderr := "" })
      = (false, some (joinWith "; " (failuresOf
          { timedOut := false, returncode := 0
            stdout := "FAIL: case 0: got 1, expected 2", stderr := "" })))
  ∧ evaluate_coding "x = 1" "f" []
        (fun _ => { timedOut := false, returncode := 0, stdout := "", stderr := "" })
      = (false, some ("No test output detected. stdout: "
          ++ pyTake 200 (pyStrip "")))
  ∧ evaluate_coding "x = 1" "f" []
        (fun _ => { timedOut := false, returncode := 0
                    stdout := "PASS: case 0", stderr := "" })
      = (true, none) := by
  refine ⟨(evaluate_coding_judgment_policy _ _ _ _ _ rfl).1 rfl,
    ((evaluate_coding_judgment_policy _ _ _ _ _ rfl).2.1 rfl (by decide)).1,
    (evaluate_coding_judgment_policy _ _ _ _ _ rfl).2.2.1 rfl rfl (by decide),
    (evaluate_coding_judgment_policy _ _ _ _ _ rfl).2.2.2.1 rfl rfl (by decide)
      (by decide),
    (evaluate_coding_judgment_policy _ _ _ _ _ rfl).2.2.2.2 rfl rfl (by decide)
      (by decide)⟩

/-! ### Substring closure lemmas -/

theorem isPrefixOf_append_right (l m y : List Char) (h : l.isPrefixOf m = true) :
    l.isPrefixOf (m ++ y) = true := by
  induction l generalizing m with
  | nil => simp [List.isPrefixOf]
  | cons a as ih =>
    cases m with
    | nil => simp [List.isPrefixOf] at h
    | cons b bs =>
      simp only [List.isPrefixOf, Bool.and_eq_true] at h ⊢
      exact ⟨h.1, ih bs h.2⟩

theorem listContains_append_right (n hay y : List Char)
    (h : listContains n hay = true) : listContains n (hay ++ y) = true := by
  induction hay with
  | nil =>
    have hn : n = [] := by simpa [listContains] using h
    subst hn
    cases y <;> simp [listContains, List.isPrefixOf]
  | cons c cs ih =>
    rw [List.cons_append]
    simp only [listContains, Bool.or_eq_true] at h ⊢
    rcases h with h | h
    · exact Or.inl (by
        have := isPrefixOf_append_right n (c :: cs) y h
        simpa using this)
    · exact Or.inr (ih h)

theorem joinWith_mem_decomp (sep x : String) :
    ∀ (L : List String), x ∈ L → ∃ a b, joinWith sep L = a ++ x ++ b := by
  intro L
  induction L with
  | nil => intro h; simp at h
  | cons s t ih =>
    intro hx
    cases t with
    | nil =>
      rcases List.mem_singleton.mp hx with rfl
      exact ⟨"", "", by apply String.ext; simp [joinWith, String.data_append]⟩
    | cons s2 t2 =>
      rcases List.mem_cons.mp hx with rfl | hx2
      · refine ⟨"", sep ++ joinWith sep (s2 :: t2), ?_⟩
        apply String.ext
        show (x ++ sep ++ joinWith sep (s2 :: t2)).data = _
        simp [String.data_append, List.append_assoc]
      · obtain ⟨a, b, hab⟩ := ih hx2
        refine ⟨s ++ sep ++ a, b, ?_⟩
        apply String.ext
        show (s ++ sep ++ joinWith sep (s2 :: t2)).data = _
        simp [String.data_append, hab, List.append_assoc]

/-! ### Facts about `Nat.repr` (the interpolated case indices) -/

theorem digitChar_not_space (n : Nat) : isPySpace (Nat.digitChar n) = false := by
  rcases Nat.lt_or_ge n 16 with h | h
  · interval_cases n <;> decide
  · have hstar : Nat.digitChar n = '*' := by
      unfold Nat.digitChar
      repeat rw [if_neg (by omega)]
    rw [hstar]
    decide

theorem toDigitsCore_not_space :
    ∀ (fuel n : Nat) (ds : List Char), (∀ c ∈ ds, isPySpace c = false) →
      ∀ c ∈ Nat.toDigitsCore 10 fuel n ds, isPySpace c = false := by
  intro fuel
  induction fuel with
  | zero => intro n ds h c hc; exact h c hc
  | succ fuel ih =>
    intro n ds h c hc
    simp only [Nat.toDigitsCore] at hc
    split at hc
    · rcases List.mem_cons.mp hc with hc | hc
      · rw [hc]; exact digitChar_not_space _
      · exact h c hc
    · refine ih _ _ (fun c' hc' => ?_) c hc
      rcases List.mem_cons.mp hc' with hc' | hc'
      · rw [hc']; exact digitChar_not_space _
      · exact h c' hc'

theorem toDigitsCore_length_le :
    ∀ (fuel n : Nat) (ds : List Char),
      ds.length ≤ (Nat.toDigitsCore 10 fuel n ds).length := by
  intro fuel
  induction fuel with
  | zero => intro n ds; exact Nat.le_refl _
  | succ fuel ih =>
    intro n ds
    simp only [Nat.toDigitsCore]
    split
    · simp
    · exact Nat.le_trans (by simp) (ih (n / 10) (Nat.digitChar (n % 10) :: ds))

theorem natRepr_data (n : Nat) : (Nat.repr n).data = Nat.toDigits 10 n := rfl

theorem natRepr_ne_nil (n : Nat) : (Nat.repr n).data ≠ [] := by
  rw [natRepr_data]
  show Nat.toDigitsCore 10 (n + 1) n [] ≠ []
  simp only [Nat.toDigitsCore]
  split
  · simp
  · intro h
    have := toDigitsCore_length_le n (n / 10) [Nat.digitChar (n % 10)]
    rw [h] at this
    simp at this

theorem natRepr_not_space (n : Nat) :
    ∀ c ∈ (Nat.repr n).data, isPySpace c = false := by
  rw [natRepr_data]
  exact toDigitsCore_not_space (n + 1) n [] (by simp)

theorem natRepr_no_newline (n : Nat) : '\n' ∉ (Nat.repr n).data := by
  intro h
  have := natRepr_not_space n '\n' h
  simp [isPySpace] at this

/-! ### Joining and splitting marker lines -/

/-- `"\n".join` at the character-list level. -/
def joinL : List (List Char) → List Char
  | [] => []
  | [l] => l
  | l :: rest => l ++ '\n' :: joinL rest

theorem joinWith_newline_data (ls : List String) :
    (joinWith "\n" ls).data = joinL (ls.map String.data) := by
  induction ls with
  | nil => rfl
  | cons s t ih =>
    cases t with
    | nil => rfl
    | cons s2 t2 =>
      show (s ++ "\n" ++ joinWith "\n" (s2 :: t2)).data
        = s.data ++ '\n' :: joinL ((s2 :: t2).map String.data)
      rw [String.data_append, String.data_append, ih, List.append_assoc]
      rfl

theorem joinL_ne_nil (l : List Char) (rest : List (List Char)) (h : l ≠ []) :
    joinL (l :: rest) ≠ [] := by
  cases rest with
  | nil => exact h
  | cons l2 t => simp [joinL]

theorem joinL_head? (l : List Char) (rest : List (List Char)) (h : l ≠ []) :
    (joinL (l :: rest)).head? = l.head? := by
  cases rest with
  | nil => rfl
  | cons l2 t =>
    show (l ++ '\n' :: joinL (l2 :: t)).head? = l.head?
    cases l with
    | nil => exact absurd rfl h
    | cons a as => rfl

theorem joinL_getLast_eq (ls : List (List Char)) (last : List Char)
    (h : ∀ l ∈ ls, l ≠ []) (hl : ls.getLast? = some last) :
    (joinL ls).getLast? = last.getLast? := by
  induction ls with
  | nil => cases hl
  | cons l t ih =>
    cases t with
    | nil =>
      have hll : l = last := by simpa using hl
      rw [← hll]; rfl
    | cons l2 t2 =>
      rw [List.getLast?_cons_cons] at hl
      have hne : joinL (l2 :: t2) ≠ [] := joinL_ne_nil l2 t2 (h l2 (by simp))
      have ihh := ih (fun x hx => h x (List.mem_cons_of_mem l hx)) hl
      show (l ++ '\n' :: joinL (l2 :: t2)).getLast? = last.getLast?
      rw [List.getLast?_append]
      have h1 : ('\n' :: joinL (l2 :: t2)).getLast? = (joinL (l2 :: t2)).getLast? := by
        cases hj : joinL (l2 :: t2) with
        | nil => exact absurd hj hne
        | cons x xs => exact List.getLast?_cons_cons
      rw [h1, ihh]
      have hlast_ne : last ≠ [] := h last (List.mem_cons_of_mem l
        (List.mem_of_getLast?_eq_some hl))
      cases hg : last.getLast? with
      | none => exact absurd (List.getLast?_eq_none_iff.mp hg) hlast_ne
      | some y => rw [Option.or_some]

theorem splitOnChar_cons_eq (c x : Char) (xs : List Char) (h : List Char)
    (t : List (List Char)) (hs : splitOnChar c xs = h :: t) :
    splitOnChar c (x :: xs) = if x = c then [] :: h :: t else (x :: h) :: t := by
  simp only [splitOnChar, hs]

theorem splitOnChar_ne_nil (c : Char) (l : List Char) : splitOnChar c l ≠ [] := by
  induction l with
  | nil => simp [splitOnChar]
  | cons x xs ih =>
    cases hs : splitOnChar c xs with
    | nil => exact absurd hs ih
    | cons h t =>
      rw [splitOnChar_cons_eq c x xs h t hs]
      split <;> simp

theorem splitOnChar_no_sep (c : Char) (l : List Char) (h : c ∉ l) :
    splitOnChar c l = [l] := by
  induction l with
  | nil => rfl
  | cons x xs ih =>
    have hx : x ≠ c := fun hc => h (by simp [hc])
    have hxs : c ∉ xs := fun hc => h (by simp [hc])
    rw [splitOnChar_cons_eq c x xs xs [] (ih hxs), if_neg hx]

theorem splitOnChar_append (c : Char) (l rest : List Char) (h : c ∉ l) :
    splitOnChar c (l ++ c :: rest) = l :: splitOnChar c rest := by
  induction l with
  | nil =>
    cases hs : splitOnChar c rest with
    | nil => exact absurd hs (splitOnChar_ne_nil c rest)
    | cons hh tt =>
      show splitOnChar c (c :: rest) = [] :: hh :: tt
      rw [splitOnChar_cons_eq c c rest hh tt hs, if_pos rfl]
  | cons x xs ih =>
    have hx : x ≠ c := fun hc => h (by simp [hc])
    have hxs : c ∉ xs := fun hc => h (by simp [hc])
    cases hs : splitOnChar c (xs ++ c :: rest) with
    | nil => exact absurd hs (splitOnChar_ne_nil c _)
    | cons hh tt =>
      show splitOnChar c (x :: (xs ++ c :: rest)) = (x :: xs) :: splitOnChar c rest
      rw [splitOnChar_cons_eq c x _ hh tt hs, if_neg hx]
      have heq : hh :: tt = xs :: splitOnChar c rest := by
        rw [← hs]; exact ih hxs
      injection heq with h1 h2
      rw [h1, h2]

theorem splitOnChar_joinL (ls : List (List Char)) (hne : ls ≠ [])
    (h : ∀ l ∈ ls, '\n' ∉ l) :
    splitOnChar '\n' (joinL ls) = ls := by
  induction ls with
  | nil => exact absurd rfl hne
  | cons l t ih =>
    cases t with
    | nil => exact splitOnChar_no_sep '\n' l (h l (by simp))
    | cons l2 t2 =>
      show splitOnChar '\n' (l ++ '\n' :: joinL (l2 :: t2)) = l :: l2 :: t2
      rw [splitOnChar_append '\n' l _ (h l (by simp))]
      rw [ih (by simp) (fun l' hl' => h l' (by simp [hl']))]

theorem pySplitlinesL_joinL (ls : List (List Char)) (hne : ls ≠ [])
    (hnl : ∀ l ∈ ls, '\n' ∉ l) (hn : ∀ l ∈ ls, l ≠ []) :
    pySplitlinesL (joinL ls) = ls := by
  obtain ⟨l, t, rfl⟩ : ∃ l t, ls = l :: t := by
    cases ls with
    | nil => exact absurd rfl hne
    | cons l t => exact ⟨l, t, rfl⟩
  unfold pySplitlinesL
  rw [if_neg (joinL_ne_nil l t (hn l (by simp)))]
  rw [splitOnChar_joinL (l :: t) hne hnl]
  rw [if_neg ?_]
  intro hg
  exact hn [] (List.mem_of_getLast?_eq_some hg) rfl

/-! ### Facts about the marker lines -/

theorem enumFrom_snd_mem {α : Type} :
    ∀ (k : Nat) (os : List α) (p : Nat × α), p ∈ os.enumFrom k → p.2 ∈ os := by
  intro k os
  induction os generalizing k with
  | nil => intro p hp; simp at hp
  | cons o t ih =>
    intro p hp
    rw [List.enumFrom_cons] at hp
    rcases List.mem_cons.mp hp with hp | hp
    · rw [hp]; exact List.mem_cons_self o t
    · exact List.mem_cons_of_mem o (ih (k + 1) p hp)

theorem enum_snd_mem {α : Type} (os : List α) (p : Nat × α)
    (hp : p ∈ os.enum) : p.2 ∈ os :=
  enumFrom_snd_mem 0 os p hp

theorem caseLine_ne_nil (i : Nat) (o : CaseOutcome) : (caseLine i o).data ≠ [] := by
  intro h
  cases o with
  | pass =>
    have h2 : (caseLine i .pass).data.head? = some 'P' := rfl
    rw [h] at h2
    cases h2
  | failCmp g e =>
    have h2 : (caseLine i (.failCmp g e)).data.head? = some 'F' := rfl
    rw [h] at h2
    cases h2
  | failExc m =>
    have h2 : (caseLine i (.failExc m)).data.head? = some 'F' := rfl
    rw [h] at h2
    cases h2

theorem caseLine_head_not_space (i : Nat) (o : CaseOutcome) :
    ∀ a, (caseLine i o).data.head? = some a → isPySpace a = false := by
  cases o with
  | pass =>
    intro a ha
    rw [show (caseLine i .pass).data.head? = some 'P' from rfl] at ha
    injection ha with ha
    rw [← ha]; decide
  | failCmp g e =>
    intro a ha
    rw [show (caseLine i (.failCmp g e)).data.head? = some 'F' from rfl] at ha
    injection ha with ha
    rw [← ha]; decide
  | failExc m =>
    intro a ha
    rw [show (caseLine i (.failExc m)).data.head? = some 'F' from rfl] at ha
    injection ha with ha
    rw [← ha]; decide

theorem caseLine_no_newline (i : Nat) (o : CaseOutcome) (hyg : Hygienic o) :
    '\n' ∉ (caseLine i o).data := by
  cases o with
  | pass =>
    show '\n' ∉ ("PASS: case ".data ++ (Nat.repr i).data)
    intro h
    rcases List.mem_append.mp h with h | h
    · exact absurd h (by decide)
    · exact natRepr_no_newline i h
  | failCmp g e =>
    obtain ⟨hg, he1, -, -⟩ := hyg
    show '\n' ∉ ("FAIL: case ".data ++ (Nat.repr i).data ++ ": got ".data
      ++ g.data ++ ", expected ".data ++ e.data)
    intro h
    rcases List.mem_append.mp h with h | h
    · rcases List.mem_append.mp h with h | h
      · rcases List.mem_append.mp h with h | h
        · rcases List.mem_append.mp h with h | h
          · rcases List.mem_append.mp h with h | h
            · exact absurd h (by decide)
            · exact natRepr_no_newline i h
          · exact absurd h (by decide)
        · exact hg h
      · exact absurd h (by decide)
    · exact he1 h
  | failExc m =>
    obtain ⟨hm1, -, -⟩ := hyg
    show '\n' ∉ ("FAIL: case ".data ++ (Nat.repr i).data ++ ": exception ".data
      ++ m.data)
    intro h
    rcases List.mem_append.mp h with h | h
    · rcases List.mem_append.mp h with h | h
      · rcases List.mem_append.mp h with h | h
        · exact absurd h (by decide)
        · exact natRepr_no_newline i h
      · exact absurd h (by decide)
    · exact hm1 h

theorem caseLine_last_not_space (i : Nat) (o : CaseOutcome) (hyg : Hygienic o) :
    ∀ a, (caseLine i o).data.getLast? = some a → isPySpace a = false := by
  cases o with
  | pass =>
    intro a ha
    rw [show (caseLine i .pass).data = "PASS: case ".data ++ (Nat.repr i).data
      from rfl] at ha
    rw [List.getLast?_append] at ha
    cases hg : (Nat.repr i).data.getLast? with
    | none => exact absurd (List.getLast?_eq_none_iff.mp hg) (natRepr_ne_nil i)
    | some b =>
      rw [hg, Option.or_some] at ha
      injection ha with ha
      rw [← ha]
      exact natRepr_not_space i b (List.mem_of_getLast?_eq_some hg)
  | failCmp g e =>
    obtain ⟨-, -, hne, hlast⟩ := hyg
    intro a ha
    rw [show (caseLine i (.failCmp g e)).data
      = ("FAIL: case " ++ Nat.repr i ++ ": got " ++ g ++ ", expected ").data
        ++ e.data from rfl] at ha
    rw [List.getLast?_append] at ha
    cases hg : e.data.getLast? with
    | none => exact absurd (List.getLast?_eq_none_iff.mp hg) hne
    | some b =>
      rw [hg, Option.or_some] at ha
      injection ha with ha
      rw [← ha]
      exact hlast b hg
  | failExc m =>
    obtain ⟨-, hne, hlast⟩ := hyg
    intro a ha
    rw [show (caseLine i (.failExc m)).data
      = ("FAIL: case " ++ Nat.repr i ++ ": exception ").data ++ m.data
      from rfl] at ha
    rw [List.getLast?_append] at ha
    cases hg : m.data.getLast? with
    | none => exact absurd (List.getLast?_eq_none_iff.mp hg) hne
    | some b =>
      rw [hg, Option.or_some] at ha
      injection ha with ha
      rw [← ha]
      exact hlast b hg

theorem caseLine_fail_marker (i : Nat) (o : CaseOutcome) :
    pyStartswith (caseLine i o) "FAIL:" = (o ≠ .pass : Bool) := by
  cases o <;> rfl

theorem caseLine_pass_marker (i : Nat) (o : CaseOutcome) :
    pyStartswith (caseLine i o) "PASS:" = (o = .pass : Bool) := by
  cases o <;> rfl

/-- For a nonempty list of single-line strings that neither start nor end in
whitespace, `strip` leaves their newline-join unchanged and `splitlines`
recovers exactly the lines. -/
theorem strip_split_joinWith (L : List String) (hLne : L ≠ [])
    (hfacts : ∀ l ∈ L, l.data ≠ [] ∧ '\n' ∉ l.data
      ∧ (∀ a, l.data.head? = some a → isPySpace a = false)
      ∧ (∀ a, l.data.getLast? = some a → isPySpace a = false)) :
    pyStrip (joinWith "\n" L) = joinWith "\n" L
  ∧ pySplitlines (joinWith "\n" L) = L := by
  have hdata : (joinWith "\n" L).data = joinL (L.map String.data) :=
    joinWith_newline_data L
  have hdne : ∀ ld ∈ L.map String.data, ld ≠ [] := by
    intro ld hld
    obtain ⟨l, hl, rfl⟩ := List.mem_map.mp hld
    exact (hfacts l hl).1
  have hdnl : ∀ ld ∈ L.map String.data, '\n' ∉ ld := by
    intro ld hld
    obtain ⟨l, hl, rfl⟩ := List.mem_map.mp hld
    exact (hfacts l hl).2.1
  have hmapne : L.map String.data ≠ [] := by
    intro h
    exact hLne (List.map_eq_nil_iff.mp h)
  constructor
  · show (⟨pyStripL (joinWith "\n" L).data⟩ : String) = joinWith "\n" L
    rw [hdata]
    obtain ⟨l, t, hLt⟩ : ∃ l t, L = l :: t := by
      cases L with
      | nil => exact absurd rfl hLne
      | cons l t => exact ⟨l, t, rfl⟩
    have hstrip : pyStripL (joinL (L.map String.data)) = joinL (L.map String.data) := by
      apply pyStripL_eq_self
      · intro a ha
        rw [hLt] at ha
        rw [List.map_cons, joinL_head? l.data _ (hfacts l (by rw [hLt]; simp)).1] at ha
        exact (hfacts l (by rw [hLt]; simp)).2.2.1 a ha
      · intro a ha
        obtain ⟨lastl, hlastl⟩ : ∃ x, L.getLast? = some x := by
          rw [hLt]
          cases hg : (l :: t).getLast? with
          | none => exact absurd (List.getLast?_eq_none_iff.mp hg) (by simp)
          | some x => exact ⟨x, rfl⟩
        have hmap_last : (L.map String.data).getLast? = some lastl.data := by
          rw [List.getLast?_map, hlastl]; rfl
        rw [joinL_getLast_eq (L.map String.data) lastl.data hdne hmap_last] at ha
        exact (hfacts lastl (List.mem_of_getLast?_eq_some hlastl)).2.2.2 a ha
    rw [hstrip, ← hdata]
  · show (pySplitlinesL (joinWith "\n" L).data).map (fun l => (⟨l⟩ : String)) = L
    rw [hdata, pySplitlinesL_joinL (L.map String.data) hmapne hdnl hdne]
    rw [List.map_map]
    exact List.map_id'' (fun s => rfl) L

/-- The marker lines of a harness run survive the strip-and-split of
`evaluate_coding` exactly. -/
theorem harness_lines (os : List CaseOutcome) (hne : os ≠ [])
    (hyg : ∀ o ∈ os, Hygienic o) :
    pyStrip (harnessStdout os) = harnessStdout os
  ∧ pySplitlines (harnessStdout os)
      = os.enum.map (fun p => caseLine p.1 p.2) := by
  have hLne : os.enum.map (fun p => caseLine p.1 p.2) ≠ [] := by
    intro h
    rcases os with _ | ⟨o, t⟩
    · exact hne rfl
    · simp [List.enum] at h
  have hfacts : ∀ l ∈ os.enum.map (fun p => caseLine p.1 p.2),
      l.data ≠ [] ∧ '\n' ∉ l.data
      ∧ (∀ a, l.data.head? = some a → isPySpace a = false)
      ∧ (∀ a, l.data.getLast? = some a → isPySpace a = false) := by
    intro l hl
    obtain ⟨p, hp, rfl⟩ := List.mem_map.mp hl
    have ho : p.2 ∈ os := enum_snd_mem os p hp
    exact ⟨caseLine_ne_nil p.1 p.2, caseLine_no_newline p.1 p.2 (hyg p.2 ho),
      caseLine_head_not_space p.1 p.2, caseLine_last_not_space p.1 p.2 (hyg p.2 ho)⟩
  have := strip_split_joinWith (os.enum.map (fun p => caseLine p.1 p.2))
    hLne hfacts
  exact ⟨this.1, this.2⟩

/-- Verdict of the judge on a completed harness run: true exactly when every
case passed and there was at least one case. -/
theorem harness_verdict (os : List CaseOutcome) (hne : os ≠ [])
    (hyg : ∀ o ∈ os, Hygienic o) :
    (judgeProc (harnessRun os)).1 = true ↔ ∀ o ∈ os, o = CaseOutcome.pass := by
  obtain ⟨hstrip, hsplit⟩ := harness_lines os hne hyg
  have hstdout : (harnessRun os).stdout = harnessStdout os := rfl
  have hfail : failuresOf (harnessRun os)
      = (os.enum.map (fun p => caseLine p.1 p.2)).filter
          (fun line => pyStartswith line "FAIL:") := by
    rw [failuresOf, hstdout, hstrip, hsplit]
  have hpass : hasPassLine (harnessRun os)
      = (os.enum.map (fun p => caseLine p.1 p.2)).any
          (fun line => pyStartswith line "PASS:") := by
    rw [hasPassLine, hstdout, hstrip, hsplit]
  have hfail_iff : failuresOf (harnessRun os) = [] ↔ ∀ o ∈ os, o = CaseOutcome.pass := by
    rw [hfail, List.filter_eq_nil_iff]
    constructor
    · intro h o ho
      by_contra hno
      obtain ⟨i, hio⟩ : ∃ i, (i, o) ∈ os.enum := by
        obtain ⟨i, hi, hv⟩ := List.mem_iff_getElem.mp ho
        exact ⟨i, by
          have := List.mk_mem_enum_iff_getElem? (l := os) (i := i) (x := o)
          exact this.mpr (by rw [List.getElem?_eq_getElem hi, hv])⟩
      have := h (caseLine i o) (List.mem_map.mpr ⟨(i, o), hio, rfl⟩)
      rw [caseLine_fail_marker] at this
      simp [hno] at this
    · intro h line hline
      obtain ⟨p, hp, rfl⟩ := List.mem_map.mp hline
      rw [caseLine_fail_marker]
      have := h p.2 (enum_snd_mem os p hp)
      simp [this]
  have hjudge : (judgeProc (harnessRun os)).1 = true
      ↔ (failuresOf (harnessRun os) = [] ∧ hasPassLine (harnessRun os) = true) := by
    rw [judgeProc]
    rw [if_neg (by simp [harnessRun]), if_neg (by simp [harnessRun])]
    by_cases hf : failuresOf (harnessRun os) = []
    · rw [if_neg (by simp [hf])]
      by_cases hp : hasPassLine (harnessRun os) = true
      · rw [if_neg (by simp [hp])]
        simp [hf, hp]
      · rw [if_pos hp]
        simp [hf, hp]
    · rw [if_pos hf]
      simp [hf]
  rw [hjudge]
  constructor
  · intro ⟨h1, _⟩
    exact hfail_iff.mp h1
  · intro hall
    refine ⟨hfail_iff.mpr hall, ?_⟩
    rw [hpass]
    obtain ⟨o, t, rfl⟩ : ∃ o t, os = o :: t := by
      cases os with
      | nil => exact absurd rfl hne
      | cons o t => exact ⟨o, t, rfl⟩
    rw [List.any_eq_true]
    refine ⟨caseLine 0 o, List.mem_map.mpr ⟨(0, o), by simp [List.enum], rfl⟩, ?_⟩
    rw [caseLine_pass_marker]
    simp [hall o (by simp)]

/-- A failing attempt (any non-success outcome) stores its error message,
appends the backoff sleep `2 ** (attempt + 1)` and continues the loop. -/
theorem retryLoop_fail_step (m : String) (o : Nat → AttemptOutcome)
    (rem made : Nat) (le : String) (sl : List Nat)
    (hf : (o made).isSuccess = false) :
    retryLoop m o (rem + 1) made le sl
      = retryLoop m o rem (made + 1) (attemptErrMsg (o made))
          (sl ++ [2 ^ (made + 1)]) := by
  cases ho : o made with
  | success c tok lat => rw [ho] at hf; exact absurd hf (by simp [AttemptOutcome.isSuccess])
  | errorStatus code text => simp [retryLoop, ho]
  | readTimeout => simp [retryLoop, ho]
  | missingField key => simp [retryLoop, ho]

/-- A successful attempt returns immediately with the parsed response. -/
theorem retryLoop_success_step (m : String) (o : Nat → AttemptOutcome)
    (rem made : Nat) (le : String) (sl : List Nat) (c : String) (tok lat : Nat)
    (ho : o made = .success c tok lat) :
    retryLoop m o (rem + 1) made le sl
      = { result := .ok { content := c, latency_ms := lat, tokens_used := tok }
          attemptsMade := made + 1, sleeps := sl } := by
  simp [retryLoop, ho]

/-- Loop characterization of `retryLoop`: `k ≤ remaining` attempts are
executed, a successful result takes at least one attempt and sleeps once per
failed attempt before it, each failed attempt appends its backoff sleep
`2 ** (attempt + 1)` in attempt order, and exhaustion yields the wrapping
`RuntimeError` built from the retry ceiling, the model id and the last
observed error. -/
theorem retryLoop_char (m : String) (o : Nat → AttemptOutcome) :
    ∀ (rem made : Nat) (le : String) (sl : List Nat),
    ∃ k : Nat,
      (retryLoop m o rem made le sl).attemptsMade = made + k
    ∧ k ≤ rem
    ∧ (∀ resp, (retryLoop m o rem made le sl).result = .ok resp →
        1 ≤ k ∧ (retryLoop m o rem made le sl).sleeps
          = sl ++ (List.range' made (k - 1)).map (fun i => 2 ^ (i + 1)))
    ∧ (∀ e, (retryLoop m o rem made le sl).result = .error e →
        k = rem
        ∧ (retryLoop m o rem made le sl).sleeps
            = sl ++ (List.range' made k).map (fun i => 2 ^ (i + 1))
        ∧ e = "Failed after " ++ Nat.repr MAX_RETRIES ++ " retries for "
            ++ m ++ ": "
            ++ (if rem = 0 then le else attemptErrMsg (o (made + rem - 1)))) := by
  intro rem
  induction rem with
  | zero =>
    intro made le sl
    refine ⟨0, rfl, Nat.le_refl 0, ?_, ?_⟩
    · intro resp hres
      simp [retryLoop] at hres
    · intro e he
      have he' : e = "Failed after " ++ Nat.repr MAX_RETRIES ++ " retries for "
          ++ m ++ ": " ++ le := by
        simp only [retryLoop] at he
        simp at he
        simp [he]
      exact ⟨rfl, by simp [retryLoop, List.range'], by simp [he']⟩
  | succ rem ih =>
    intro made le sl
    cases hsb : (o made).isSuccess
    · rw [retryLoop_fail_step m o rem made le sl hsb]
      obtain ⟨k, h1, h2, h3, h5⟩ :=
        ih (made + 1) (attemptErrMsg (o made)) (sl ++ [2 ^ (made + 1)])
      refine ⟨k + 1, by omega, by omega, ?_, ?_⟩
      · intro resp hres
        obtain ⟨hk1, hsl⟩ := h3 resp hres
        refine ⟨by omega, ?_⟩
        rw [hsl]
        have hk : k + 1 - 1 = (k - 1) + 1 := by omega
        rw [hk, List.range'_succ, List.map_cons, List.append_assoc]
        rfl
      · intro e he
        obtain ⟨hk, hsl, hmsg⟩ := h5 e he
        refine ⟨by omega, ?_, ?_⟩
        · rw [hsl, List.range'_succ, List.map_cons, List.append_assoc]
          rfl
        · rcases Nat.eq_zero_or_pos rem with hz | hpos
          · subst hz
            rw [hmsg]
            simp
          · rw [hmsg, if_neg (by omega), if_neg (by omega)]
            have hidx : made + 1 + rem - 1 = made + (rem + 1) - 1 := by omega
            rw [hidx]
    · obtain ⟨c, tok, lat, hok⟩ :
          ∃ c tok lat, o made = .success c tok lat := by
        cases hx : o made with
        | success c tok lat => exact ⟨c, tok, lat, rfl⟩
        | errorStatus code text => rw [hx] at hsb; cases hsb
        | readTimeout => rw [hx] at hsb; cases hsb
        | missingField key => rw [hx] at hsb; cases hsb
      rw [retryLoop_success_step m o rem made le sl c tok lat hok]
      refine ⟨1, rfl, by omega, ?_, ?_⟩
      · intro resp hres
        exact ⟨Nat.le_refl 1, by simp [List.range']⟩
      · intro e he
        cases he

/-- C7: every `complete` call makes at most `MAX_RETRIES = 3` POST attempts;
it sleeps between retried attempts with an exponential backoff starting at 2
seconds and doubling with the attempt index, deterministically (no jitter):
the sleeps are exactly `2^(i+1)` for the failed attempts `i` in order; and
when all attempts are exhausted the call fails with a `RuntimeError` wrapping
the retry ceiling, the model id and the last observed error. -/
theorem complete_with_retry_bounded_backoff (modelId : String)
    (oracle : Nat → AttemptOutcome) :
    (complete_with_retry modelId oracle).attemptsMade ≤ MAX_RETRIES
  ∧ MAX_RETRIES = 3
  ∧ (∀ resp, (complete_with_retry modelId oracle).result = .ok resp →
      (complete_with_retry modelId oracle).sleeps
        = (List.range ((complete_with_retry modelId oracle).attemptsMade - 1)).map
            (fun i => 2 ^ (i + 1)))
  ∧ (∀ e, (complete_with_retry modelId oracle).result = .error e →
      (complete_with_retry modelId oracle).attemptsMade = MAX_RETRIES
      ∧ (complete_with_retry modelId oracle).sleeps
          = (List.range MAX_RETRIES).map (fun i => 2 ^ (i + 1))
      ∧ e = "Failed after " ++ Nat.repr MAX_RETRIES ++ " retries for "
          ++ modelId ++ ": " ++ attemptErrMsg (oracle 2)) := by
  obtain ⟨k, h1, h2, h3, h5⟩ :=
    retryLoop_char modelId oracle MAX_RETRIES 0 "None" []
  have hc : complete_with_retry modelId oracle
      = retryLoop modelId oracle MAX_RETRIES 0 "None" [] := rfl
  rw [hc]
  refine ⟨by omega, rfl, ?_, ?_⟩
  · intro resp hres
    obtain ⟨hk1, hsl⟩ := h3 resp hres
    have hx : 0 + k - 1 = k - 1 := by omega
    rw [h1, hsl, List.nil_append, List.range_eq_range', hx]
  · intro e he
    obtain ⟨hk, hsl, hmsg⟩ := h5 e he
    refine ⟨by omega, ?_, ?_⟩
    · rw [hsl, List.nil_append, List.range_eq_range', hk]
    · rw [hmsg, if_neg (by simp [MAX_RETRIES])]
      rfl

/-- Witness for C7: with a transport that always times out, the call makes
exactly 3 attempts, sleeps 2, 4 and 8 seconds, and fails with the wrapped
last error. -/
theorem complete_with_retry_bounded_backoff_witness :
    (complete_with_retry "m" (fun _ => .readTimeout)).attemptsMade ≤ MAX_RETRIES
  ∧ (complete_with_retry "m" (fun _ => .readTimeout)).attemptsMade = MAX_RETRIES
  ∧ (complete_with_retry "m" (fun _ => .readTimeout)).sleeps = [2, 4, 8]
  ∧ (complete_with_retry "m" (fun _ => .readTimeout)).result
      = .error ("Failed after " ++ Nat.repr MAX_RETRIES ++ " retries for m: "
          ++ attemptErrMsg ((fun _ => AttemptOutcome.readTimeout) 2)) := by
  refine ⟨(complete_with_retry_bounded_backoff "m" (fun _ => .readTimeout)).1,
    ((complete_with_retry_bounded_backoff "m" (fun _ => .readTimeout)).2.2.2
      _ rfl).1, by decide, ?_⟩
  exact (((complete_with_retry_bounded_backoff "m"
    (fun _ => .readTimeout)).2.2.2
    ("Failed after 3 retries for m: ReadTimeout") rfl).2.2) ▸ rfl

/-- The transport oracle of the C1 counterexample: HTTP 400 on the first
attempt, success on the second. -/
def badRequestOracle : Nat → AttemptOutcome := fun i =>
  if i = 0 then .errorStatus 400 "Bad Request" else .success "ok" 5 100

/-- C1 counterexample: an HTTP 400 response — a client-error status other
than 429 — does **not** fail immediately: `raise_for_status`'s
`HTTPStatusError` lands in the retry handler, so a backoff sleep of 2 seconds
occurs, a second attempt is made, and the call succeeds.  The claim asserts
no further attempt and no sleep for this input. -/
theorem clientError_400_retried_counterexample :
    (complete_with_retry "m" badRequestOracle).attemptsMade = 2
  ∧ (complete_with_retry "m" badRequestOracle).sleeps = [2]
  ∧ (complete_with_retry "m" badRequestOracle).result
      = .ok { content := "ok", latency_ms := 100, tokens_used := 5 }
  ∧ ¬ ((complete_with_retry "m" badRequestOracle).attemptsMade = 1
        ∧ (complete_with_retry "m" badRequestOracle).sleeps = []) := by
  refine ⟨rfl, rfl, rfl, ?_⟩
  rintro ⟨h, -⟩
  simp [complete_with_retry, retryLoop, badRequestOracle, MAX_RETRIES] at h

/-- C1 (amended): an attempt that fails with HTTP 429 or any 5xx retries via
the explicit branch, and every other failure the transport reports — any
other non-success HTTP status (4xx included, via `raise_for_status`'s
`HTTPStatusError`), a response timeout, or a response body missing expected
fields — is caught by the same retry handler: the attempt sleeps the backoff
and is retried rather than failing immediately.  Only HTTP error statuses
never abort the call without a retry. -/
theorem any_failed_attempt_is_retried (modelId : String) (f : AttemptOutcome)
    (c : String) (tok lat : Nat) (hf : f.isSuccess = false) :
    complete_with_retry modelId (fun i => if i = 0 then f else .success c tok lat)
      = { result := .ok { content := c, latency_ms := lat, tokens_used := tok }
          attemptsMade := 2
          sleeps := [2] } := by
  cases f with
  | success c' t' l' => exact absurd hf (by simp [AttemptOutcome.isSuccess])
  | errorStatus code text => rfl
  | readTimeout => rfl
  | missingField key => rfl

/-- Witness for C1: a 404 response is retried and the call then succeeds. -/
theorem any_failed_attempt_is_retried_witness :
    complete_with_retry "m"
        (fun i => if i = 0 then .errorStatus 404 "not found"
                  else .success "ok" 1 2)
      = { result := .ok { content := "ok", latency_ms := 2, tokens_used := 1 }
          attemptsMade := 2
          sleeps := [2] } :=
  any_failed_attempt_is_retried "m" (.errorStatus 404 "not found") "ok" 1 2 rfl

/-! ## Claim C9: the per-model concurrency gate -/

/-- Reachable client states keep every model's in-flight count at or below
the cap. -/
theorem clientReachable_le (s : InFlight) (h : ClientReachable s) :
    ∀ m, s m ≤ MAX_CONCURRENT_PER_MODEL := by
  induction h with
  | refl => intro m; exact Nat.zero_le _
  | tail _ step ih =>
    intro m
    cases step with
    | beginRequest m' hlt =>
      by_cases hm : m = m'
      · subst hm; rw [Function.update_same]; exact hlt
      · rw [Function.update_noteq hm]; exact ih m
    | endRequest m' hpos =>
      by_cases hm : m = m'
      · subst hm; rw [Function.update_same]
        exact Nat.le_trans (Nat.sub_le _ _) (ih m)
      · rw [Function.update_noteq hm]; exact ih m

/-- C9: the per-model gate.  The cap is `MAX_CONCURRENT_PER_MODEL = 5`; in
every state reachable from the idle client — in particular with any number
of concurrent `complete` calls outstanding — at most 5 requests per model
are in flight; a request for model `m` can begin transmission exactly when
`m`'s own in-flight count is below the cap (the guard reads no other
model's gate); and saturation of one model never blocks a request for a
different model.  One gate per model id, shared by all callers, is what the
`defaultdict` of semaphores provides; it is modelled by keying the in-flight
count on the model id. -/
theorem per_model_gate (s : InFlight) :
    MAX_CONCURRENT_PER_MODEL = 5
  ∧ (ClientReachable s → ∀ m, s m ≤ MAX_CONCURRENT_PER_MODEL)
  ∧ (∀ m, ClientStep s (Function.update s m (s m + 1))
        ↔ s m < MAX_CONCURRENT_PER_MODEL)
  ∧ (∀ m mSat, mSat ≠ m → s mSat = MAX_CONCURRENT_PER_MODEL →
      s m < MAX_CONCURRENT_PER_MODEL →
      ClientStep s (Function.update s m (s m + 1))) := by
  refine ⟨rfl, clientReachable_le s, fun m => ⟨?_, fun h => .beginRequest s m h⟩,
    fun m mSat _ _ h => .beginRequest s m h⟩
  intro hstep
  generalize hupd : Function.update s m (s m + 1) = t at hstep
  cases hstep with
  | beginRequest m' hlt =>
    by_cases hm : m' = m
    · subst hm; exact hlt
    · exfalso
      have hfun := congrFun hupd m'
      rw [Function.update_same, Function.update_noteq hm] at hfun
      omega
  | endRequest m' hpos =>
    exfalso
    by_cases hm : m' = m
    · subst hm
      have hfun := congrFun hupd m'
      rw [Function.update_same, Function.update_same] at hfun
      omega
    · have hfun := congrFun hupd m'
      rw [Function.update_same, Function.update_noteq hm] at hfun
      omega

/-- Witness for C9: from the idle client, the invariant at the initial state
and an enabled first request for a model at count 0. -/
theorem per_model_gate_witness :
    ((fun _ => 0 : InFlight) "model-a" ≤ MAX_CONCURRENT_PER_MODEL)
  ∧ ClientStep (fun _ => 0)
      (Function.update (fun _ => 0 : InFlight) "model-a"
        ((fun _ => 0 : InFlight) "model-a" + 1)) := by
  exact ⟨(per_model_gate (fun _ => 0)).2.1 Relation.ReflTransGen.refl "model-a",
    ((per_model_gate (fun _ => 0)).2.2.1 "model-a").mpr (by decide)⟩

/-! ## Claim C3: the generated harness and the pass/fail equivalence -/

/-- C3 counterexample: with an empty test-case list every case's input
vacuously equals its expected literal, yet the generated harness prints
nothing, so `evaluate_coding` returns `passed = false` (the no-output
guard) — the claimed equivalence fails at this input. -/
theorem evaluate_coding_empty_cases_counterexample :
    (evaluate_coding "def f(x):\n    return x" "f" []
        (fun _ => harnessRun [])).1 = false
  ∧ (∀ o ∈ ([] : List CaseOutcome), o = CaseOutcome.pass)
  ∧ ¬ (((evaluate_coding "def f(x):\n    return x" "f" []
          (fun _ => harnessRun [])).1 = true)
        ↔ ∀ o ∈ ([] : List CaseOutcome), o = CaseOutcome.pass) := by
  refine ⟨by decide, by simp, ?_⟩
  intro h
  have h1 := h.mpr (by simp)
  have h2 : (evaluate_coding "def f(x):\n    return x" "f" []
      (fun _ => harnessRun [])).1 = false := by decide
  rw [h1] at h2
  cases h2

/-- C3 (amended): the synthesized harness starts with the candidate's source
and contains one check block per test case; each block contains the case's
`input` expression and `expected` literal verbatim, the `PASS:`/`FAIL:`
marker prints identifying the case index, and the exception handler that
turns a raised exception into a `FAIL:` line; and — provided there is at
least one test case — a completed run is judged `passed = true` iff every
case's input expression evaluated equal to its expected literal. -/
theorem evaluate_coding_harness_spec (code fname : String)
    (cases : List TestCase) (os : List CaseOutcome) :
    (∃ rest, build_test_harness code fname cases = code ++ "\n" ++ rest)
  ∧ (∀ p ∈ cases.enum,
      strContains (build_test_harness code fname cases) (checkBlock p.1 p.2) = true)
  ∧ (∀ (i : Nat) (tc : TestCase),
        strContains (checkBlock i tc) tc.input = true
      ∧ strContains (checkBlock i tc) tc.expected = true
      ∧ strContains (checkBlock i tc) (passMarker i) = true
      ∧ strContains (checkBlock i tc) (failMarker i) = true
      ∧ strContains (checkBlock i tc) (excHandler i) = true)
  ∧ (os ≠ [] → os.length = cases.length → (∀ o ∈ os, Hygienic o) →
      ((evaluate_coding code fname cases (fun _ => harnessRun os)).1 = true
        ↔ ∀ o ∈ os, o = CaseOutcome.pass)) := by
  refine ⟨?_, ?_, ?_, ?_⟩
  · exact ⟨joinWith "\n" (["", "# --- test harness ---", "import math", ""]
      ++ cases.enum.map fun p => checkBlock p.1 p.2), rfl⟩
  · intro p hp
    have hmem : checkBlock p.1 p.2
        ∈ ([code, "", "# --- test harness ---", "import math", ""]
            ++ cases.enum.map fun q => checkBlock q.1 q.2) :=
      List.mem_append.mpr (Or.inr (List.mem_map.mpr ⟨p, hp, rfl⟩))
    obtain ⟨a, b, hab⟩ := joinWith_mem_decomp "\n" (checkBlock p.1 p.2) _ hmem
    show strContains (joinWith "\n"
      ([code, "", "# --- test harness ---", "import math", ""]
        ++ cases.enum.map fun q => checkBlock q.1 q.2)) (checkBlock p.1 p.2) = true
    rw [hab]
    exact strContains_of_decomp a _ b
  · intro i tc
    refine ⟨?_, ?_, ?_, ?_, ?_⟩
    · have hd : checkBlock i tc
          = ("try:\n    _result_" ++ Nat.repr i ++ " = ") ++ tc.input
            ++ ("\n    _expected_" ++ Nat.repr i ++ " = " ++ tc.expected
              ++ "\n    if _result_" ++ Nat.repr i ++ " == _expected_"
              ++ Nat.repr i ++ ":\n        " ++ passMarker i
              ++ "\n    else:\n        " ++ failMarker i ++ "\n"
              ++ excHandler i ++ "\n") := by
        apply String.ext
        simp [checkBlock, String.data_append, List.append_assoc]
      rw [hd]
      exact strContains_of_decomp _ _ _
    · have hd : checkBlock i tc
          = ("try:\n    _result_" ++ Nat.repr i ++ " = " ++ tc.input
              ++ "\n    _expected_" ++ Nat.repr i ++ " = ") ++ tc.expected
            ++ ("\n    if _result_" ++ Nat.repr i ++ " == _expected_"
              ++ Nat.repr i ++ ":\n        " ++ passMarker i
              ++ "\n    else:\n        " ++ failMarker i ++ "\n"
              ++ excHandler i ++ "\n") := by
        apply String.ext
        simp [checkBlock, String.data_append, List.append_assoc]
      rw [hd]
      exact strContains_of_decomp _ _ _
    · have hd : checkBlock i tc
          = ("try:\n    _result_" ++ Nat.repr i ++ " = " ++ tc.input
              ++ "\n    _expected_" ++ Nat.repr i ++ " = " ++ tc.expected
              ++ "\n    if _result_" ++ Nat.repr i ++ " == _expected_"
              ++ Nat.repr i ++ ":\n        ") ++ passMarker i
            ++ ("\n    else:\n        " ++ failMarker i ++ "\n"
              ++ excHandler i ++ "\n") := by
        apply String.ext
        simp [checkBlock, String.data_append, List.append_assoc]
      rw [hd]
      exact strContains_of_decomp _ _ _
    · have hd : checkBlock i tc
          = ("try:\n    _result_" ++ Nat.repr i ++ " = " ++ tc.input
              ++ "\n    _expected_" ++ Nat.repr i ++ " = " ++ tc.expected
              ++ "\n    if _result_" ++ Nat.repr i ++ " == _expected_"
              ++ Nat.repr i ++ ":\n        " ++ passMarker i
              ++ "\n    else:\n        ") ++ failMarker i
            ++ ("\n" ++ excHandler i ++ "\n") := by
        apply String.ext
        simp [checkBlock, String.data_append, List.append_assoc]
      rw [hd]
      exact strContains_of_decomp _ _ _
    · have hd : checkBlock i tc
          = ("try:\n    _result_" ++ Nat.repr i ++ " = " ++ tc.input
              ++ "\n    _expected_" ++ Nat.repr i ++ " = " ++ tc.expected
              ++ "\n    if _result_" ++ Nat.repr i ++ " == _expected_"
              ++ Nat.repr i ++ ":\n        " ++ passMarker i
              ++ "\n    else:\n        " ++ failMarker i ++ "\n") ++ excHandler i
            ++ "\n" := by
        apply String.ext
        simp [checkBlock, String.data_append, List.append_assoc]
      rw [hd]
      exact strContains_of_decomp _ _ _
  · intro hne _hlen hyg
    exact harness_verdict os hne hyg

/-- Witness for C3: a one-case harness whose case passes is judged true, and
the block for case 0 contains its input expression verbatim. -/
theorem evaluate_coding_harness_spec_witness :
    (evaluate_coding "def f(x):\n    return x" "f"
        [{ input := "f(1)", expected := "1" }]
        (fun _ => harnessRun [CaseOutcome.pass])).1 = true
  ∧ strContains (checkBlock 0 { input := "f(1)", expected := "1" }) "f(1)" = true := by
  constructor
  · exact ((evaluate_coding_harness_spec "def f(x):\n    return x" "f"
      [{ input := "f(1)", expected := "1" }] [CaseOutcome.pass]).2.2.2
      (by simp) (by simp)
      (by intro o ho; rcases List.mem_singleton.mp ho with rfl; trivial)).mpr
      (by intro o ho; rcases List.mem_singleton.mp ho with rfl; rfl)
  · exact ((evaluate_coding_harness_spec "def f(x):\n    return x" "f"
      [{ input := "f(1)", expected := "1" }] [CaseOutcome.pass]).2.2.1
      0 { input := "f(1)", expected := "1" }).1

/-! ## Claim C6: `evaluate_reasoning` -/

theorem pyFloat_eval {s : String} {f : FloatLit} {q : ℚ}
    (hp : parseFloatLit s.data = some f) (hv : f.value = q) :
    pyFloat s = some q := by
  rw [pyFloat, hp]; simp [hv]

theorem pyFloat_314 : pyFloat (pyLower (pyStrip "3.14")) = some (157 / 50) :=
  pyFloat_eval (f := ⟨false, ['3'], ['1', '4'], false, []⟩) (by decide)
    (by simp [FloatLit.value, (show digitsToNat ['3'] = 3 by decide),
          (show digitsToNat ['1', '4'] = 14 by decide)]; norm_num)

theorem pyFloat_314159 :
    pyFloat (pyLower (pyStrip "3.14159")) = some (314159 / 100000) :=
  pyFloat_eval (f := ⟨false, ['3'], ['1', '4', '1', '5', '9'], false, []⟩)
    (by decide)
    (by simp [FloatLit.value, (show digitsToNat ['3'] = 3 by decide),
          (show digitsToNat ['1', '4', '1', '5', '9'] = 14159 by decide)]
        norm_num)

theorem pyFloat_1e9 :
    pyFloat (pyLower (pyStrip "1000000000")) = some 1000000000 :=
  pyFloat_eval
    (f := ⟨false, ['1', '0', '0', '0', '0', '0', '0', '0', '0', '0'], [], false, []⟩)
    (by decide)
    (by simp [FloatLit.value, (show digitsToNat [] = 0 by decide),
          (show digitsToNat ['1', '0', '0', '0', '0', '0', '0', '0', '0', '0']
            = 1000000000 by decide)])

theorem pyFloat_1e9p1 :
    pyFloat (pyLower (pyStrip "1000000001")) = some 1000000001 :=
  pyFloat_eval
    (f := ⟨false, ['1', '0', '0', '0', '0', '0', '0', '0', '0', '1'], [], false, []⟩)
    (by decide)
    (by simp [FloatLit.value, (show digitsToNat [] = 0 by decide),
          (show digitsToNat ['1', '0', '0', '0', '0', '0', '0', '0', '0', '1']
            = 1000000001 by decide)])

/-- C6 counterexample: with `tolerance` unset the code still applies
`math.isclose`'s default relative tolerance of 1e-9, so `evaluate_reasoning`
accepts two strings denoting different numbers — the claim's "exact numeric
match required" (absolute difference within a tolerance of 0) would reject
them. -/
theorem evaluate_reasoning_default_tolerance_counterexample :
    evaluate_reasoning "1000000000" "1000000001" none = true
  ∧ pyLower (pyStrip "1000000000") ≠ pyLower (pyStrip "1000000001")
  ∧ pyFloat (pyLower (pyStrip "1000000000")) = some 1000000000
  ∧ pyFloat (pyLower (pyStrip "1000000001")) = some 1000000001
  ∧ ¬ (|(1000000000 : ℚ) - 1000000001| ≤ 0) := by
  refine ⟨?_, by decide, pyFloat_1e9, pyFloat_1e9p1, by norm_num⟩
  simp only [evaluate_reasoning, pyFloat_1e9, pyFloat_1e9p1]
  rw [if_neg (by decide)]
  show isclose 1000000000 1000000001 ((none : Option ℚ).getD 0) = true
  rw [isclose]
  simp only [Option.getD_none, decide_eq_true_eq]
  rw [abs_of_neg (by norm_num : (1000000000 : ℚ) - 1000000001 < 0),
    abs_of_pos (by norm_num : (0 : ℚ) < 1000000000),
    abs_of_pos (by norm_num : (0 : ℚ) < 1000000001),
    max_eq_right (by norm_num : (1000000000 : ℚ) ≤ 1000000001),
    max_eq_left (by norm_num : (0 : ℚ) ≤ 1 / 1000000000 * 1000000001)]
  norm_num

/-- C6 (amended): `evaluate_reasoning` returns true iff the two strings are
equal after trimming and lowercasing, or both parse as numeric values that
`math.isclose` accepts with absolute tolerance `tolerance or 0` and the
default relative tolerance 1e-9 — so an unset tolerance requires equality
only up to one part in 10^9, not exactly; a parse failure on either side
yields false, and no exception escapes (the function is total).  In
particular `evaluate_reasoning "3.14" "3.14159" 0.01` is true and
`evaluate_reasoning "3.14" "3.14159" None` is false. -/
theorem evaluate_reasoning_spec (a b : String) (tol : Option ℚ) :
    (pyLower (pyStrip a) = pyLower (pyStrip b) →
      evaluate_reasoning a b tol = true)
  ∧ (pyLower (pyStrip a) ≠ pyLower (pyStrip b) →
      ∀ x y, pyFloat (pyLower (pyStrip a)) = some x →
        pyFloat (pyLower (pyStrip b)) = some y →
        (evaluate_reasoning a b tol = true
          ↔ |x - y| ≤ max ((1 / 1000000000) * max |x| |y|) (tol.getD 0)))
  ∧ (pyLower (pyStrip a) ≠ pyLower (pyStrip b) →
      (pyFloat (pyLower (pyStrip a)) = none ∨ pyFloat (pyLower (pyStrip b)) = none) →
      evaluate_reasoning a b tol = false)
  ∧ evaluate_reasoning "3.14" "3.14159" (some (1 / 100)) = true
  ∧ evaluate_reasoning "3.14" "3.14159" none = false := by
  have habs : |(157 / 50 : ℚ) - 314159 / 100000| = 159 / 100000 := by
    rw [abs_of_neg (by norm_num : (157 / 50 : ℚ) - 314159 / 100000 < 0)]
    norm_num
  have hmax : max |(157 / 50 : ℚ)| |(314159 / 100000 : ℚ)| = 314159 / 100000 := by
    rw [abs_of_pos (by norm_num : (0 : ℚ) < 157 / 50),
      abs_of_pos (by norm_num : (0 : ℚ) < 314159 / 100000),
      max_eq_right (by norm_num : (157 / 50 : ℚ) ≤ 314159 / 100000)]
  refine ⟨fun h => ?_, fun h x y hx hy => ?_, fun h hn => ?_, ?_, ?_⟩
  · simp [evaluate_reasoning, h]
  · simp [evaluate_reasoning, h, hx, hy, isclose]
  · rcases hn with hn | hn
    · simp [evaluate_reasoning, h, hn]
    · cases hxa : pyFloat (pyLower (pyStrip a)) <;>
        simp [evaluate_reasoning, h, hn, hxa]
  · simp only [evaluate_reasoning, pyFloat_314, pyFloat_314159]
    rw [if_neg (by decide)]
    show isclose (157 / 50) (314159 / 100000) ((some (1 / 100 : ℚ)).getD 0) = true
    rw [isclose]
    simp only [Option.getD_some, decide_eq_true_eq, habs, hmax]
    rw [max_eq_right (by norm_num :
      (1 / 1000000000 : ℚ) * (314159 / 100000) ≤ 1 / 100)]
    norm_num
  · simp only [evaluate_reasoning, pyFloat_314, pyFloat_314159]
    rw [if_neg (by decide)]
    show isclose (157 / 50) (314159 / 100000) ((none : Option ℚ).getD 0) = false
    rw [isclose]
    simp only [Option.getD_none, decide_eq_false_iff_not, habs, hmax]
    rw [max_eq_left (by norm_num :
      (0 : ℚ) ≤ 1 / 1000000000 * (314159 / 100000))]
    norm_num

/-- Witness for C6: equal-after-normalization and unparsable inputs. -/
theorem evaluate_reasoning_spec_witness :
    evaluate_reasoning "YES " "yes" none = true
  ∧ evaluate_reasoning "abc" "3" none = false := by
  exact ⟨(evaluate_reasoning_spec "YES " "yes" none).1 (by decide),
    (evaluate_reasoning_spec "abc" "3" none).2.2.1 (by decide)
      (Or.inl (by decide))⟩

/-! ## Claim C4: `extract_answer` -/

/-- The literal tag as it appears in the pattern. -/
def tagLit : List Char := ['A', 'N', 'S', 'W', 'E', 'R', ':']

theorem dropWhile_head_false {p : Char → Bool} :
    ∀ (l : List Char) (c : Char) (cs : List Char),
      l.dropWhile p = c :: cs → p c = false := by
  intro l
  induction l with
  | nil => intro c cs h; cases h
  | cons a as ih =>
    intro c cs h
    cases hpa : p a with
    | true =>
      rw [List.dropWhile_cons, hpa, if_pos rfl] at h
      exact ih c cs h
    | false =>
      rw [List.dropWhile_cons, hpa, if_neg (by simp)] at h
      injection h with h1 _
      rw [← h1]
      exact hpa

theorem takeWhile_all {p : Char → Bool} :
    ∀ (l : List Char), (∀ x ∈ l, p x = true) → l.takeWhile p = l := by
  intro l
  induction l with
  | nil => intro _; rfl
  | cons a as ih =>
    intro h
    rw [List.takeWhile_cons, if_pos (h a (by simp))]
    rw [ih (fun x hx => h x (by simp [hx]))]

theorem takeWhile_mem_pred {p : Char → Bool} :
    ∀ (l : List Char) (x : Char), x ∈ l.takeWhile p → p x = true := by
  intro l
  induction l with
  | nil => intro x hx; cases hx
  | cons a as ih =>
    intro x hx
    rw [List.takeWhile_cons] at hx
    split at hx
    · rcases List.mem_cons.mp hx with rfl | hx2
      · assumption
      · exact ih x hx2
    · cases hx

theorem drop_takeWhile_length {p : Char → Bool} :
    ∀ (l : List Char), l.drop (l.takeWhile p).length = l.dropWhile p := by
  intro l
  induction l with
  | nil => rfl
  | cons a as ih =>
    cases hpa : p a with
    | true =>
      rw [List.takeWhile_cons, if_pos hpa, List.dropWhile_cons, if_pos hpa]
      simpa using ih
    | false =>
      rw [List.takeWhile_cons, if_neg (by simp [hpa]),
        List.dropWhile_cons, if_neg (by simp [hpa])]
      rfl

theorem takeWhile_dropWhile_length {p : Char → Bool} (l : List Char) :
    (l.takeWhile p).length + (l.dropWhile p).length = l.length := by
  have h := congrArg List.length (List.takeWhile_append_dropWhile p l)
  rw [List.length_append] at h
  exact h

/-- `\s*(.+?)$` on a newline-free, nonempty remainder consumes all of it and
its capture strips to the same string as the remainder. -/
theorem wsCapture_no_newline (v : List Char) (hne : v ≠ []) (hnl : '\n' ∉ v) :
    ∃ cap, wsCapture v = some (cap, v.length) ∧ pyStripL cap = pyStripL v := by
  cases hr : v.dropWhile isPySpace with
  | cons c cs =>
    have hc : isPySpace c = false := dropWhile_head_false v c cs hr
    have hcap : (c :: cs).takeWhile (· != '\n') = c :: cs := by
      apply takeWhile_all
      intro x hx
      have hxv : x ∈ v := (List.dropWhile_sublist isPySpace).subset (hr ▸ hx)
      simp only [bne_iff_ne, ne_eq, decide_eq_true_eq]
      intro hx'
      exact hnl (hx' ▸ hxv)
    have hlen : (v.takeWhile isPySpace).length + (c :: cs).length = v.length := by
      have := takeWhile_dropWhile_length (p := isPySpace) v
      rw [hr] at this
      exact this
    refine ⟨c :: cs, ?_, ?_⟩
    · simp only [wsCapture, drop_takeWhile_length v, hr, hcap]
      exact congrArg some (congrArg _ hlen)
    · have h2 : List.dropWhile isPySpace (c :: cs) = c :: cs := by
        rw [List.dropWhile_cons, if_neg (by simp [hc])]
      simp [pyStripL, hr, h2]
  | nil =>
    have hall : ∀ x ∈ v, isPySpace x = true := by
      intro x hx
      have hx' : x ∈ v.takeWhile isPySpace := by
        have hv : v.takeWhile isPySpace = v := by
          have := List.takeWhile_append_dropWhile isPySpace v
          rw [hr, List.append_nil] at this
          exact this
        rw [hv]; exact hx
      exact takeWhile_mem_pred v x hx'
    have htw : v.takeWhile isPySpace = v := takeWhile_all v hall
    cases hwr : v.reverse with
    | nil => exact absurd (List.reverse_eq_nil_iff.mp hwr) hne
    | cons c cs =>
      have hcv : c ∈ v := by rw [← List.mem_reverse, hwr]; simp
      have ht : (c :: cs).takeWhile (· == '\n') = [] := by
        rw [List.takeWhile_cons, if_neg]
        simp only [beq_iff_eq]
        intro hc
        exact hnl (hc ▸ hcv)
      refine ⟨[c], ?_, ?_⟩
      · simp only [wsCapture, drop_takeWhile_length v, hr, htw, hwr, ht]
        simp
      · have hcw : isPySpace c = true := hall c hcv
        simp [pyStripL, hr, List.dropWhile_cons, hcw]

/-- The answer pattern matches at the tag and consumes the tag plus the
whole newline-free remainder. -/
theorem tagAt_seam (v : List Char) (hne : v ≠ []) (hnl : '\n' ∉ v) :
    ∃ cap, tagAt (tagLit ++ v) = some (cap, 7 + v.length)
      ∧ pyStripL cap = pyStripL v := by
  obtain ⟨cap, hcap, hstrip⟩ := wsCapture_no_newline v hne hnl
  refine ⟨cap, ?_, hstrip⟩
  rw [tagAt, if_pos]
  · rw [show (tagLit ++ v).drop 7 = v from List.drop_left tagLit v, hcap]
  · rw [show (tagLit ++ v).take 7 = tagLit from List.take_left tagLit v]
    decide

/-- Scanning with `k` characters still to skip is scanning the suffix. -/
theorem answerScanGo_skip :
    ∀ (n : Nat) (l : List Char), answerScanGo n l = answerScanGo 0 (l.drop n) := by
  intro n
  induction n with
  | zero => intro l; rw [List.drop_zero]
  | succ n ih =>
    intro l
    cases l with
    | nil => rfl
    | cons c cs =>
      rw [show answerScanGo (n + 1) (c :: cs) = answerScanGo n cs from rfl,
        List.drop_succ_cons, ih cs]

/-- Without any tag window the scan finds nothing. -/
theorem answerScanGo_no_tag :
    ∀ (l : List Char), containsTag l = false → answerScanGo 0 l = [] := by
  intro l
  induction l with
  | nil => intro _; rfl
  | cons c cs ih =>
    intro h
    rw [containsTag] at h
    rcases Bool.or_eq_false_iff.mp h with ⟨hw, hrec⟩
    have htag : tagAt (c :: cs) = none := by
      rw [tagAt, if_neg]
      intro hcontra
      rw [show (((c :: cs).take 7).map Char.toLower == tagChars) = true
        from beq_iff_eq.mpr hcontra] at hw
      cases hw
    rw [show answerScanGo 0 (c :: cs)
      = (match tagAt (c :: cs) with
        | some (cap, n) => cap :: answerScanGo (n - 1) cs
        | none => answerScanGo 0 cs) from rfl, htag]
    exact ih hrec

/-- A window that begins inside the last six characters before the tag and
spills into it can never spell the tag: the tag's seventh character is `:`
but the spilled window's seventh character is one of `ANSWER`. -/
theorem spill_no_tag (s v : List Char) (hs : s ≠ []) (hlen : s.length ≤ 6) :
    ((s ++ tagLit ++ v).take 7).map Char.toLower ≠ tagChars := by
  rcases s with _ | ⟨a, _ | ⟨b, _ | ⟨c, _ | ⟨d, _ | ⟨e, _ | ⟨f, _ | ⟨g, t⟩⟩⟩⟩⟩⟩⟩
  · exact absurd rfl hs
  · intro h
    have h2 : (some 'a' : Option Char) = some 'n' :=
      congrArg (fun l => l.get? 1) h
    exact absurd h2 (by decide)
  · intro h
    have h2 : (some 'a' : Option Char) = some 's' :=
      congrArg (fun l => l.get? 2) h
    exact absurd h2 (by decide)
  · intro h
    have h2 : (some 'a' : Option Char) = some 'w' :=
      congrArg (fun l => l.get? 3) h
    exact absurd h2 (by decide)
  · intro h
    have h2 : (some 'a' : Option Char) = some 'e' :=
      congrArg (fun l => l.get? 4) h
    exact absurd h2 (by decide)
  · intro h
    have h2 : (some 'a' : Option Char) = some 'r' :=
      congrArg (fun l => l.get? 5) h
    exact absurd h2 (by decide)
  · intro h
    have h2 : (some 'a' : Option Char) = some ':' :=
      congrArg (fun l => l.get? 6) h
    exact absurd h2 (by decide)
  · simp only [List.length_cons] at hlen
    omega

/-- Scanning a tag-free prefix reaches the seam unchanged. -/
theorem answerScanGo_pre (v : List Char) :
    ∀ (s : List Char), containsTag s = false →
      answerScanGo 0 (s ++ tagLit ++ v) = answerScanGo 0 (tagLit ++ v) := by
  intro s
  induction s with
  | nil => intro _; rfl
  | cons c cs ih =>
    intro h
    rw [containsTag] at h
    rcases Bool.or_eq_false_iff.mp h with ⟨hw, hrec⟩
    have htag : tagAt ((c :: cs) ++ tagLit ++ v) = none := by
      rw [tagAt, if_neg]
      by_cases hlen : 7 ≤ (c :: cs).length
      · rw [List.append_assoc, List.take_append_eq_append_take,
          Nat.sub_eq_zero_of_le hlen, List.take_zero, List.append_nil]
        intro hcontra
        rw [show (((c :: cs).take 7).map Char.toLower == tagChars) = true
          from beq_iff_eq.mpr hcontra] at hw
        cases hw
      · exact spill_no_tag (c :: cs) v (by simp) (by omega)
    rw [show (c :: cs) ++ tagLit ++ v = c :: (cs ++ tagLit ++ v) from by
      simp [List.cons_append]]
    rw [show answerScanGo 0 (c :: (cs ++ tagLit ++ v))
      = (match tagAt (c :: (cs ++ tagLit ++ v)) with
        | some (cap, n) => cap :: answerScanGo (n - 1) (cs ++ tagLit ++ v)
        | none => answerScanGo 0 (cs ++ tagLit ++ v)) from rfl]
    rw [show tagAt (c :: (cs ++ tagLit ++ v)) = tagAt ((c :: cs) ++ tagLit ++ v)
      from by simp [List.cons_append], htag]
    exact ih hrec

/-- The full scan of `pre ++ "ANSWER:" ++ v` produces exactly the capture of
the final tag. -/
theorem answerScan_append_tag (pre v : List Char)
    (hpre : containsTag pre = false) (hne : v ≠ []) (hnl : '\n' ∉ v) :
    ∃ cap, answerScan (pre ++ tagLit ++ v) = [cap]
      ∧ pyStripL cap = pyStripL v := by
  obtain ⟨cap, hcap, hstrip⟩ := tagAt_seam v hne hnl
  refine ⟨cap, ?_, hstrip⟩
  rw [answerScan, answerScanGo_pre v pre hpre]
  cases hlv : tagLit ++ v with
  | nil => exact absurd (congrArg List.length hlv) (by simp [tagLit])
  | cons c cs =>
    rw [show answerScanGo 0 (c :: cs)
      = (match tagAt (c :: cs) with
        | some (cap, n) => cap :: answerScanGo (n - 1) cs
        | none => answerScanGo 0 cs) from rfl]
    rw [← hlv, hcap]
    have hlen : cs.length = 6 + v.length := by
      have := congrArg List.length hlv
      simp [tagLit] at this
      omega
    show cap :: answerScanGo (7 + v.length - 1) cs = [cap]
    have hd : cs.drop (7 + v.length - 1) = [] :=
      List.drop_eq_nil_of_le (by omega)
    rw [answerScanGo_skip, hd]
    rfl

/-- C4: `extract_answer` returns the trimmed text captured after the last
`ANSWER:` tag (case-insensitive, `$`-anchored); with no tag anywhere it
falls back to the last integer/decimal token in the response; it is `None`
when neither exists.  Concrete instances check the last-occurrence policy
(`"ANSWER: wrong\n...ANSWER: correct"` gives `"correct"`), case
insensitivity, trimming, and the numeric fallback. -/
theorem extract_answer_policy :
    (∀ pre v : String, containsTag pre.data = false → v ≠ "" →
      '\n' ∉ v.data →
      extract_answer (pre ++ "ANSWER:" ++ v) = some (pyStrip v))
  ∧ (∀ r : String, containsTag r.data = false →
      extract_answer r
        = ((numberScan r.data).getLast?).map (fun tok => (⟨tok⟩ : String)))
  ∧ (∀ r : String, containsTag r.data = false → numberScan r.data = [] →
      extract_answer r = none)
  ∧ extract_answer "ANSWER: wrong\n...ANSWER: correct" = some "correct"
  ∧ extract_answer "answer:   spaced out  " = some "spaced out"
  ∧ extract_answer "no tag here: 12 then 34.5 end" = some "34.5"
  ∧ extract_answer "nothing numeric" = none := by
  refine ⟨?_, ?_, ?_, by decide, by decide, by decide, by decide⟩
  · intro pre v hpre hne hnl
    have hvd : v.data ≠ [] := by
      intro h
      exact hne (String.ext (h.trans rfl))
    have hdata : (pre ++ "ANSWER:" ++ v).data = pre.data ++ tagLit ++ v.data := by
      rw [String.data_append, String.data_append]
      rfl
    obtain ⟨cap, hscan, hstrip⟩ := answerScan_append_tag pre.data v.data
      hpre hvd hnl
    rw [extract_answer, hdata, hscan]
    show some (⟨pyStripL cap⟩ : String) = some (⟨pyStripL v.data⟩ : String)
    rw [hstrip]
  · intro r hr
    have hscan : answerScan r.data = [] := answerScanGo_no_tag r.data hr
    rw [extract_answer, hscan]
    cases hnum : (numberScan r.data).getLast? with
    | some tok => rfl
    | none => rfl
  · intro r hr hnum
    have hscan : answerScan r.data = [] := answerScanGo_no_tag r.data hr
    rw [extract_answer, hscan, hnum]
    rfl

/-- Witness for C4: the tag-capture equation at a concrete response with a
preamble, and the numeric fallback at a tag-free response. -/
theorem extract_answer_policy_witness :
    extract_answer ("some reasoning\n" ++ "ANSWER:" ++ "  42 is best  ")
      = some (pyStrip "  42 is best  ")
  ∧ extract_answer "only 7 here"
      = ((numberScan ("only 7 here" : String).data).getLast?).map
          (fun tok => (⟨tok⟩ : String)) := by
  exact ⟨extract_answer_policy.1 "some reasoning\n" "  42 is best  "
      (by decide) (by decide) (by decide),
    extract_answer_policy.2.1 "only 7 here" (by decide)⟩

/-! ## Claim C5: `extract_code` -/

/-- C5: among all `python`/`py` fenced blocks, `extract_code` returns the
body of the first one containing a definition of the function name,
stripped; if none match, the first block's body; with no fenced block at
all, the raw-text scan for the definition followed by its indented body; and
`None` exactly when no strategy locates a candidate.  In particular, with
two fenced blocks of which only the second contains `def target`, it returns
exactly that block's body verbatim. -/
theorem extract_code_strategy (r f : String) :
    (∀ b bs, fenceScan r.data = b :: bs →
        extract_code r f = some (pyStrip ⟨(((b :: bs).find?
          (fun block => strContains ⟨block⟩ ("def " ++ f))).getD b : List Char)⟩))
  ∧ (fenceScan r.data = [] →
        extract_code r f
          = (rawScan ("def " ++ f ++ "(").data r.data).map
              (fun g => pyStrip ⟨g⟩))
  ∧ (extract_code r f = none
      ↔ fenceScan r.data = []
        ∧ rawScan ("def " ++ f ++ "(").data r.data = none)
  ∧ extract_code
      "```python\nprint(\"hello\")\n```\nSome text.\n```python\ndef target(x):\n    return x\n```"
      "target"
      = some "def target(x):\n    return x" := by
  refine ⟨?_, ?_, ?_, by decide⟩
  · intro b bs hb
    cases hfind : (b :: bs).find?
        (fun block => strContains ⟨block⟩ ("def " ++ f)) with
    | some blk => simp [extract_code, hb, hfind]
    | none => simp [extract_code, hb, hfind]
  · intro hb
    cases hraw : rawScan ("def " ++ f ++ "(").data r.data with
    | some g => simp only [extract_code, hb, hraw]; rfl
    | none => simp only [extract_code, hb, hraw]; rfl
  · constructor
    · intro hnone
      cases hb : fenceScan r.data with
      | nil =>
        refine ⟨rfl, ?_⟩
        cases hraw : rawScan ("def " ++ f ++ "(").data r.data with
        | some g => simp only [extract_code, hb, hraw] at hnone; cases hnone
        | none => rfl
      | cons b bs =>
        cases hfind : (b :: bs).find?
            (fun block => strContains ⟨block⟩ ("def " ++ f)) with
        | some blk => simp [extract_code, hb, hfind] at hnone
        | none => simp [extract_code, hb, hfind] at hnone
    · rintro ⟨hb, hraw⟩
      simp only [extract_code, hb, hraw]

/-- Witness for C5: the block-preference equation at a one-block response
and the raw-scan fallback at a fence-free response. -/
theorem extract_code_strategy_witness :
    extract_code "```python\nx = 1\n```" "f"
      = some (pyStrip ⟨((["x = 1\n".data].find?
          (fun block => strContains ⟨block⟩ ("def " ++ "f"))).getD
            "x = 1\n".data : List Char)⟩)
  ∧ extract_code "no fences here" "f"
      = (rawScan ("def " ++ "f" ++ "(").data "no fences here".data).map
          (fun g => pyStrip ⟨g⟩) := by
  exact ⟨(extract_code_strategy "```python\nx = 1\n```" "f").1
      "x = 1\n".data [] (by decide),
    (extract_code_strategy "no fences here" "f").2.1 (by decide)⟩

/-! ## Claims C8 and C10: failure isolation in `evaluate_single` -/

/-- C10: whenever the inference call inside a task fails with an exception,
the `EvalResult` returned by `evaluate_single` has an empty raw response, no
extracted answer, `correct = false`, an error string beginning with
`API error: `, and zero latency and token usage. -/
theorem evaluate_single_api_error_fields (model_name language exc : String)
    (question : Question) (exec : String → ProcResult) :
    (evaluate_single model_name question language (.error exc) exec).raw_response = ""
  ∧ (evaluate_single model_name question language (.error exc) exec).extracted_answer = none
  ∧ (evaluate_single model_name question language (.error exc) exec).correct = false
  ∧ (evaluate_single model_name question language (.error exc) exec).error
      = some ("API error: " ++ exc)
  ∧ (∃ s, (evaluate_single model_name question language (.error exc) exec).error = some s
      ∧ pyStartswith s "API error: " = true)
  ∧ (evaluate_single model_name question language (.error exc) exec).latency_ms = 0
  ∧ (evaluate_single model_name question language (.error exc) exec).tokens_used = 0 := by
  refine ⟨rfl, rfl, rfl, rfl, ⟨"API error: " ++ exc, rfl, ?_⟩, rfl, rfl⟩
  show ("API error: ").data.isPrefixOf ("API error: " ++ exc).data = true
  rw [String.data_append]
  exact isPrefixOf_append _ _

/-- C8: a failing task never propagates: an exception from the inference
call is caught and becomes an `EvalResult` with `correct = false` and an
`API error:` diagnostic, and an extraction failure (no candidate found in
the response) is recorded as a failed `EvalResult` with a descriptive
diagnostic rather than raised or retried. -/
theorem evaluate_single_isolates_failures (model_name language exc : String)
    (question : Question) (exec : String → ProcResult)
    (resp : CompletionResponse) :
    ((evaluate_single model_name question language (.error exc) exec).correct = false
      ∧ (evaluate_single model_name question language (.error exc) exec).error
          = some ("API error: " ++ exc))
  ∧ (∀ qid d pe pr fn fs tcs, extract_code resp.content fn = none →
      (evaluate_single model_name (.coding qid d pe pr fn fs tcs) language
          (.ok resp) exec).correct = false
      ∧ (evaluate_single model_name (.coding qid d pe pr fn fs tcs) language
          (.ok resp) exec).error = some "Could not extract code from response")
  ∧ (∀ qid sc d pe pr ea tol, extract_answer resp.content = none →
      (evaluate_single model_name (.reasoning qid sc d pe pr ea tol) language
          (.ok resp) exec).correct = false
      ∧ (evaluate_single model_name (.reasoning qid sc d pe pr ea tol) language
          (.ok resp) exec).error = some "Could not extract answer from response") := by
  refine ⟨⟨rfl, rfl⟩, fun qid d pe pr fn fs tcs h => ?_,
    fun qid sc d pe pr ea tol h => ?_⟩ <;>
    exact ⟨by simp [evaluate_single, h], by simp [evaluate_single, h]⟩

/-- Witness for C8: a response from which neither extractor finds a
candidate. -/
theorem evaluate_single_isolates_failures_witness :
    (evaluate_single "m" (.coding "q1" "easy" "p" "p" "f" "def f(x)" []) "en"
        (.ok { content := "no code here", latency_ms := 7, tokens_used := 9 })
        (fun _ => { timedOut := false, returncode := 0, stdout := "", stderr := "" })).error
      = some "Could not extract code from response"
  ∧ (evaluate_single "m" (.reasoning "q2" "math" "easy" "p" "p" "42" none) "en"
        (.ok { content := "no answer here", latency_ms := 7, tokens_used := 9 })
        (fun _ => { timedOut := false, returncode := 0, stdout := "", stderr := "" })).correct
      = false := by
  exact ⟨((evaluate_single_isolates_failures "m" "en" "e" (.coding "q1" "easy" "p" "p" "f" "def f(x)" [])
      _ { content := "no code here", latency_ms := 7, tokens_used := 9 }).2.1
      "q1" "easy" "p" "p" "f" "def f(x)" [] (by decide)).2,
    ((evaluate_single_isolates_failures "m" "en" "e" (.reasoning "q2" "math" "easy" "p" "p" "42" none)
      _ { content := "no answer here", latency_ms := 7, tokens_used := 9 }).2.2
      "q2" "math" "easy" "p" "p" "42" none (by decide)).1⟩
